import Mathlib

/-!
# ShoppinggCart: cart, order and session handlers

A shallow embedding of `models.go`, `middleware.go` and `handlers.go`.

* The relational store behind the global `db` handle is a record of tables, each a list
  of rows in storage order.  Rows are the Go structs of `models.go` (timestamps and the
  never-loaded `User` association left out); `DeletedAt` records whether `deleted_at` is set.
* The query layer (`First`, `Create`, `Save`, `Update`, `Delete`, `Preload`) is modelled by the
  `db…` functions: queries on soft-deletable models skip deleted rows, `First` orders by
  primary key, `Create` assigns a key larger than every key used before.
* Handlers are functions from a store and a request to a response and a new store.
* `float64` prices and totals are values of `Float64`, with products and sums rounded to
  the nearest value, ties to even; `int` quantities are 64-bit two's complement;
  what `crypto/rand`, `bcrypt` and the validator compute is passed in from outside.
-/

namespace ShoppingCart

/-! ## float64 -/

/-- A `float64`: a finite value `± mant × 2 ^ exp`, an infinity, or a NaN.  The operations
below return finite values in the form `2 ^ 52 ≤ mant < 2 ^ 53` with `-1074 ≤ exp ≤ 971`, or
`mant < 2 ^ 52` with `exp = -1074`. -/
inductive Float64 where
  | finite (neg : Bool) (mant : Nat) (exp : Int)
  | inf (neg : Bool)
  | nan
deriving DecidableEq

def floorLog2Aux : Nat → Nat → Nat
  | 0, _ => 0
  | fuel + 1, n => if n < 2 then 0 else floorLog2Aux fuel (n / 2) + 1

/-- The position of the leading binary digit of `n`. -/
def floorLog2 (n : Nat) : Nat := floorLog2Aux n n

/-- The integer nearest to `num / den`, the even one of two equally near. -/
def roundHalfEven (num den : Nat) : Nat :=
  let q := num / den
  let r := num % den
  if 2 * r < den then q
  else if 2 * r = den then (if q % 2 = 0 then q else q + 1)
  else q + 1

/-- Numerator and denominator of `n / (d × 2 ^ e)`. -/
def scaleTo (n d : Nat) (e : Int) : Nat × Nat :=
  if 0 ≤ e then (n, d * 2 ^ e.toNat) else (n * 2 ^ (-e).toNat, d)

/-- The `float64` nearest to `± n / d` (for `d > 0`), ties to even: 53 significant bits,
gradual underflow below `2 ^ -1022`, an infinity from `2 ^ 1024` on. -/
def Float64.round (neg : Bool) (n d : Nat) : Float64 :=
  if n = 0 then .finite neg 0 (-1074)
  else
    let e1 : Int := (floorLog2 n : Int) - (floorLog2 d : Int) - 53
    let e2 : Int := if 2 ^ 53 ≤ (scaleTo n d e1).1 / (scaleTo n d e1).2 then e1 + 1 else e1
    let e : Int := max e2 (-1074)
    let q := roundHalfEven (scaleTo n d e).1 (scaleTo n d e).2
    if q = 2 ^ 53 then (if 971 < e + 1 then .inf neg else .finite neg (2 ^ 52) (e + 1))
    else if 971 < e then .inf neg else .finite neg q e

/-- The zero value of `float64`. -/
def Float64.zero : Float64 := .finite false 0 (-1074)

/-- The conversion `float64(i)` of an `int`. -/
def Float64.ofInt (i : Int) : Float64 := Float64.round (decide (i < 0)) i.natAbs 1

/-- The `float64` a decimal constant `m × 10 ^ -scale` of the source denotes. -/
def Float64.ofDecimal (m scale : Nat) : Float64 := Float64.round false m (10 ^ scale)

/-- The product `x * y` of two `float64`. -/
def Float64.mul : Float64 → Float64 → Float64
  | .nan, _ => .nan
  | _, .nan => .nan
  | .inf a, .inf b => .inf (a != b)
  | .inf a, .finite b m _ => if m = 0 then .nan else .inf (a != b)
  | .finite a m _, .inf b => if m = 0 then .nan else .inf (a != b)
  | .finite a m1 e1, .finite b m2 e2 =>
    if 0 ≤ e1 + e2 then Float64.round (a != b) (m1 * m2 * 2 ^ (e1 + e2).toNat) 1
    else Float64.round (a != b) (m1 * m2) (2 ^ (-(e1 + e2)).toNat)

/-- The sum `x + y` of two `float64`. -/
def Float64.add : Float64 → Float64 → Float64
  | .nan, _ => .nan
  | _, .nan => .nan
  | .inf a, .inf b => if a = b then .inf a else .nan
  | .inf a, .finite _ _ _ => .inf a
  | .finite _ _ _, .inf b => .inf b
  | .finite a m1 e1, .finite b m2 e2 =>
    let e := min e1 e2
    let x : Int := (if a then -1 else 1) * (m1 * 2 ^ (e1 - e).toNat : Nat)
    let y : Int := (if b then -1 else 1) * (m2 * 2 ^ (e2 - e).toNat : Nat)
    let z := x + y
    if z = 0 then .finite (a && b) 0 (-1074)
    else if 0 ≤ e then Float64.round (decide (z < 0)) (z.natAbs * 2 ^ e.toNat) 1
    else Float64.round (decide (z < 0)) z.natAbs (2 ^ (-e).toNat)

instance : Add Float64 := ⟨Float64.add⟩

instance : Mul Float64 := ⟨Float64.mul⟩

/-- The exact number a finite `float64` stands for (`0` for an infinity or a NaN). -/
def Float64.toRat : Float64 → ℚ
  | .finite neg mant exp => (if neg then -1 else 1) * (mant : ℚ) * (2 : ℚ) ^ exp
  | _ => 0

/-! ## models.go -/

structure User where
  ID : Nat
  Username : String
  Email : String
  Password : String
  Token : String
  DeletedAt : Bool
deriving DecidableEq

structure Item where
  ID : Nat
  Name : String
  Description : String
  Price : Float64
  DeletedAt : Bool
deriving DecidableEq

/-- The zero value of the Go struct `Item`. -/
def Item.zero : Item := ⟨0, "", "", Float64.zero, false⟩

structure CartItem where
  ID : Nat
  CartID : Nat
  ItemID : Nat
  Item : Item
  Quantity : Int
deriving DecidableEq

structure Cart where
  ID : Nat
  UserID : Nat
  Items : List CartItem
  DeletedAt : Bool
deriving DecidableEq

structure OrderItem where
  ID : Nat
  OrderID : Nat
  ItemID : Nat
  Item : Item
  Quantity : Int
  Price : Float64
deriving DecidableEq

structure Order where
  ID : Nat
  UserID : Nat
  Items : List OrderItem
  Total : Float64
  Status : String
  DeletedAt : Bool
deriving DecidableEq

/-! ## The store behind `db` -/

/-- The tables, and for each table written by a handler the largest key handed out so far. -/
structure Store where
  users : List User
  items : List Item
  carts : List Cart
  cartItems : List CartItem
  orders : List Order
  orderItems : List OrderItem
  userSeq : Nat
  cartSeq : Nat
  cartItemSeq : Nat
  orderSeq : Nat
  orderItemSeq : Nat
deriving DecidableEq

/-- The key an insert receives: one more than every key present or handed out before. -/
def freshID (seq : Nat) (ids : List Nat) : Nat :=
  max seq (ids.foldr max 0) + 1

/-- The result of `First`: among the selected rows, the one with the least primary key. -/
def dbFirst {α : Type} (key : α → Nat) : List α → Option α
  | [] => none
  | x :: xs =>
    match dbFirst key xs with
    | none => some x
    | some y => if key x ≤ key y then some x else some y

/-- Models `db.Where("user_id = ?", userID).First(&cart)`: the scanned row has no association loaded. -/
def dbFirstCartByUser (s : Store) (userID : Nat) : Option Cart :=
  (dbFirst Cart.ID (s.carts.filter (fun c => !c.DeletedAt && c.UserID == userID))).map
    (fun c => { c with Items := [] })

/-- The live catalog row a foreign key resolves to in `Preload("Items.Item")`. -/
def dbItemByID (s : Store) (itemID : Nat) : Option Item :=
  dbFirst Item.ID (s.items.filter (fun i => !i.DeletedAt && i.ID == itemID))

/-- Models `Preload("Items.Item")` on a cart: its line items, each with its item resolved
(the zero `Item` when the catalog has no live row). -/
def dbPreloadCartItems (s : Store) (cartID : Nat) : List CartItem :=
  (s.cartItems.filter (fun ci => ci.CartID == cartID)).map
    (fun ci => { ci with Item := (dbItemByID s ci.ItemID).getD Item.zero })

/-- Models `db.Preload("Items.Item").Where("user_id = ?", userID).First(&cart)`. -/
def dbFirstCartPreloaded (s : Store) (userID : Nat) : Option Cart :=
  (dbFirstCartByUser s userID).map (fun c => { c with Items := dbPreloadCartItems s c.ID })

/-- Models `Preload("Items.Item")` on an order. -/
def dbPreloadOrderItems (s : Store) (orderID : Nat) : List OrderItem :=
  (s.orderItems.filter (fun oi => oi.OrderID == orderID)).map
    (fun oi => { oi with Item := (dbItemByID s oi.ItemID).getD Item.zero })

/-- Models `db.Create(&cart)`: returns the struct with its key filled in. -/
def dbCreateCart (s : Store) (c : Cart) : Cart × Store :=
  let id := freshID s.cartSeq (s.carts.map Cart.ID)
  let c1 := { c with ID := id }
  (c1, { s with carts := s.carts ++ [c1], cartSeq := id })

/-- Models `db.Create(&cartItem)`. -/
def dbCreateCartItem (s : Store) (ci : CartItem) : CartItem × Store :=
  let id := freshID s.cartItemSeq (s.cartItems.map CartItem.ID)
  let ci1 := { ci with ID := id }
  (ci1, { s with cartItems := s.cartItems ++ [ci1], cartItemSeq := id })

/-- Models `db.Save(&cartItem)`: an insert when the key is zero, otherwise every column of the
row with that key is written. -/
def dbSaveCartItem (s : Store) (ci : CartItem) : CartItem × Store :=
  if ci.ID = 0 then dbCreateCartItem s ci
  else (ci, { s with cartItems := s.cartItems.map (fun r => if r.ID = ci.ID then ci else r) })

/-- Models `db.Create(&order)`. -/
def dbCreateOrder (s : Store) (o : Order) : Order × Store :=
  let id := freshID s.orderSeq (s.orders.map Order.ID)
  let o1 := { o with ID := id }
  (o1, { s with orders := s.orders ++ [o1], orderSeq := id })

/-- Models `db.Create(&orderItem)`. -/
def dbCreateOrderItem (s : Store) (oi : OrderItem) : OrderItem × Store :=
  let id := freshID s.orderItemSeq (s.orderItems.map OrderItem.ID)
  let oi1 := { oi with ID := id }
  (oi1, { s with orderItems := s.orderItems ++ [oi1], orderItemSeq := id })

/-- Models `db.Where("cart_id = ?", cartID).Delete(&CartItem{})`: `CartItem` has no `DeletedAt`,
so the rows are removed. -/
def dbDeleteCartItems (s : Store) (cartID : Nat) : Store :=
  { s with cartItems := s.cartItems.filter (fun ci => !(ci.CartID == cartID)) }

/-- Models `db.Delete(&cart)`: `Cart` is soft-deletable, so `deleted_at` is set on the live row
with the cart's key; with a zero key the statement has no condition and is refused. -/
def dbDeleteCart (s : Store) (c : Cart) : Store :=
  if c.ID = 0 then s
  else
    let rows := s.carts.map
      (fun r => if r.ID = c.ID ∧ r.DeletedAt = false then { r with DeletedAt := true } else r)
    { s with carts := rows }

/-- Models `db.Model(&user).Update("token", token)`; refused when the key is zero. -/
def dbUpdateToken (s : Store) (u : User) (token : String) : Store :=
  if u.ID = 0 then s
  else
    let rows := s.users.map
      (fun r => if r.ID = u.ID ∧ r.DeletedAt = false then { r with Token := token } else r)
    { s with users := rows }

/-- Models `db.Create(&user)`: fails on the unique indexes of `username` and `email`
(which cover soft-deleted rows too). -/
def dbCreateUser (s : Store) (u : User) : Option (User × Store) :=
  if s.users.any (fun r => r.Username == u.Username || r.Email == u.Email) then none
  else
    let id := freshID s.userSeq (s.users.map User.ID)
    let u1 := { u with ID := id }
    some (u1, { s with users := s.users ++ [u1], userSeq := id })

/-! ## Responses -/

/-- The JSON object a handler writes. -/
inductive Body where
  /-- The body `{"error": err.Error()}` of a binding failure; its text is the validator's. -/
  | bindingError
  | error (msg : String)
  | user (message : String) (user : User)
  | login (message : String) (token : String) (user : User)
  | cartItem (message : String) (cart_item : CartItem)
  | cart (cart : Cart)
  | order (message : String) (order : Order)
deriving DecidableEq

structure Response where
  status : Nat
  body : Body
deriving DecidableEq

def StatusOK : Nat := 200
def StatusCreated : Nat := 201
def StatusBadRequest : Nat := 400
def StatusUnauthorized : Nat := 401
def StatusNotFound : Nat := 404
def StatusConflict : Nat := 409
def StatusInternalServerError : Nat := 500

/-! ## middleware.go -/

/-- Splitting at every occurrence of a one-character separator, as `strings.Split` does:
`n` occurrences give `n + 1` parts, the empty text gives one empty part. -/
def splitChars (sep : Char) : List Char → List (List Char)
  | [] => [[]]
  | c :: cs =>
    if c = sep then [] :: splitChars sep cs
    else
      match splitChars sep cs with
      | [] => [[c]]
      | p :: ps => (c :: p) :: ps

/-- Models `strings.Split(s, " ")`. -/
def stringsSplit (s : String) : List String :=
  (splitChars ' ' s.data).map String.mk

/-- Models `hex.EncodeToString`: two lower-case hexadecimal digits per byte. -/
def hexEncode : List (Fin 256) → List Char
  | [] => []
  | b :: bs => Nat.digitChar (b.val / 16) :: Nat.digitChar (b.val % 16) :: hexEncode bs

/-- The sixteen bytes `rand.Read` puts into the buffer of `generateToken`. -/
abbrev RandomBytes : Type := { l : List (Fin 256) // l.length = 16 }

/-- Models `fmt.Sprintf("%d_%s", userID, hex.EncodeToString(bytes))`. -/
def generateToken (userID : Nat) (bytes : RandomBytes) : String :=
  Nat.repr userID ++ "_" ++ String.mk (hexEncode bytes.val)

/-- What the middleware does with the request: answer and abort, or store `user_id` and
`user` in the context and run the next handler. -/
inductive AuthResult where
  | abort (resp : Response)
  | next (user_id : Nat) (user : User)
deriving DecidableEq

/-- Models `db.Where("token = ?", token).First(&user)`. -/
def dbFirstUserByToken (s : Store) (token : String) : Option User :=
  dbFirst User.ID (s.users.filter (fun u => !u.DeletedAt && u.Token == token))

/-- The handler returned by `authMiddleware()`; `header` is the `Authorization` header,
`none` when the request has none (`c.GetHeader` then gives the empty string). -/
def authMiddleware (s : Store) (header : Option String) : AuthResult :=
  let authHeader := header.getD ""
  if authHeader = "" then
    .abort ⟨StatusUnauthorized, .error "Authorization header required"⟩
  else
    match stringsSplit authHeader with
    | [p0, token] =>
      if p0 ≠ "Bearer" then
        .abort ⟨StatusUnauthorized, .error "Invalid authorization header format"⟩
      else
        match dbFirstUserByToken s token with
        | none => .abort ⟨StatusUnauthorized, .error "Invalid token"⟩
        | some user => .next user.ID user
    | _ => .abort ⟨StatusUnauthorized, .error "Invalid authorization header format"⟩

/-! ## handlers.go -/

/-- The library functions the user handlers call: the `email` rule of the validator,
`bcrypt.GenerateFromPassword` (`none` on error) and `bcrypt.CompareHashAndPassword`
(`true` when it returns no error). -/
structure Extern where
  isEmail : String → Bool
  generateFromPassword : String → Option String
  compareHashAndPassword : String → String → Bool

structure CreateUserRequest where
  Username : String
  Email : String
  Password : String

def createUser (ext : Extern) (s : Store) (req : CreateUserRequest) : Response × Store :=
  if req.Username = "" ∨ req.Email = "" ∨ ext.isEmail req.Email = false
      ∨ req.Password = "" ∨ req.Password.length < 6 then
    (⟨StatusBadRequest, .bindingError⟩, s)
  else
    match ext.generateFromPassword req.Password with
    | none => (⟨StatusInternalServerError, .error "Failed to hash password"⟩, s)
    | some hashedPassword =>
      let user : User :=
        { ID := 0, Username := req.Username, Email := req.Email, Password := hashedPassword,
          Token := "", DeletedAt := false }
      match dbCreateUser s user with
      | none => (⟨StatusConflict, .error "Username or email already exists"⟩, s)
      | some (user, s1) => (⟨StatusCreated, .user "User created successfully" user⟩, s1)

structure LoginRequest where
  Username : String
  Password : String

/-- Models `db.Where("username = ?", req.Username).First(&user)`. -/
def dbFirstUserByUsername (s : Store) (username : String) : Option User :=
  dbFirst User.ID (s.users.filter (fun u => !u.DeletedAt && u.Username == username))

def loginUser (ext : Extern) (s : Store) (req : LoginRequest) (rnd : RandomBytes) :
    Response × Store :=
  if req.Username = "" ∨ req.Password = "" then
    (⟨StatusBadRequest, .bindingError⟩, s)
  else
    match dbFirstUserByUsername s req.Username with
    | none => (⟨StatusUnauthorized, .error "Invalid credentials"⟩, s)
    | some user =>
      if ext.compareHashAndPassword user.Password req.Password = false then
        (⟨StatusUnauthorized, .error "Invalid credentials"⟩, s)
      else
        let token := generateToken user.ID rnd
        let s1 := dbUpdateToken s user token
        (⟨StatusOK, .login "Login successful" token { user with Token := token }⟩, s1)

/-- The value a Go `int` holds after an addition whose exact result is `x`. -/
def wrapInt (x : Int) : Int :=
  (x + 2 ^ 63) % 2 ^ 64 - 2 ^ 63

/-- The numbers of the JSON body of `POST /carts` (`0` for a missing field). -/
structure AddToCartRequest where
  item_id : Nat
  quantity : Int

/-- Whether `c.ShouldBindJSON(&req)` succeeds in `addToCart`: the numbers fit `uint` and
`int`, and `required` and `min=1` hold. -/
def AddToCartRequest.binds (req : AddToCartRequest) : Bool :=
  decide (req.item_id < 2 ^ 64) && decide (-(2 : Int) ^ 63 ≤ req.quantity)
    && decide (req.quantity < 2 ^ 63) && decide (req.item_id ≠ 0) && decide (1 ≤ req.quantity)

/-- Models `db.First(&item, req.ItemID)`. -/
def dbFirstItem (s : Store) (itemID : Nat) : Option Item :=
  dbFirst Item.ID (s.items.filter (fun i => !i.DeletedAt && i.ID == itemID))

/-- Models `db.Where("cart_id = ? AND item_id = ?", cartID, itemID).First(&cartItem)`. -/
def dbFirstCartItem (s : Store) (cartID itemID : Nat) : Option CartItem :=
  (dbFirst CartItem.ID
    (s.cartItems.filter (fun ci => ci.CartID == cartID && ci.ItemID == itemID))).map
    (fun ci => { ci with Item := Item.zero })

def addToCart (s : Store) (userID : Nat) (req : AddToCartRequest) : Response × Store :=
  if req.binds = false then (⟨StatusBadRequest, .bindingError⟩, s)
  else
    match dbFirstItem s req.item_id with
    | none => (⟨StatusNotFound, .error "Item not found"⟩, s)
    | some _ =>
      let (cart, s1) :=
        match dbFirstCartByUser s userID with
        | some cart => (cart, s)
        | none => dbCreateCart s { ID := 0, UserID := userID, Items := [], DeletedAt := false }
      let (cartItem, s2) :=
        match dbFirstCartItem s1 cart.ID req.item_id with
        | none =>
          dbCreateCartItem s1
            { ID := 0, CartID := cart.ID, ItemID := req.item_id, Item := Item.zero,
              Quantity := req.quantity }
        | some cartItem =>
          dbSaveCartItem s1 { cartItem with Quantity := wrapInt (cartItem.Quantity + req.quantity) }
      (⟨StatusOK, .cartItem "Item added to cart" cartItem⟩, s2)

def getCart (s : Store) (userID : Nat) : Response :=
  match dbFirstCartPreloaded s userID with
  | none => ⟨StatusNotFound, .error "Cart not found"⟩
  | some cart => ⟨StatusOK, .cart cart⟩

/-- The order item `createOrder` builds for one line of the cart. -/
def orderItemOf (orderID : Nat) (cartItem : CartItem) : OrderItem :=
  { ID := 0, OrderID := orderID, ItemID := cartItem.ItemID, Item := Item.zero,
    Quantity := cartItem.Quantity, Price := cartItem.Item.Price }

/-- Models `db.Preload("Items.Item").First(&order, order.ID)`; `order` keeps its value when
no row is found. -/
def dbReloadOrder (s : Store) (order : Order) : Order :=
  match dbFirst Order.ID (s.orders.filter (fun o => !o.DeletedAt && o.ID == order.ID)) with
  | none => order
  | some o => { o with Items := dbPreloadOrderItems s o.ID }

def createOrder (s : Store) (userID : Nat) : Response × Store :=
  match dbFirstCartPreloaded s userID with
  | none => (⟨StatusNotFound, .error "Cart not found"⟩, s)
  | some cart =>
    if cart.Items.length = 0 then (⟨StatusBadRequest, .error "Cart is empty"⟩, s)
    else
      let total : Float64 :=
        cart.Items.foldl
          (fun total cartItem => total + cartItem.Item.Price * Float64.ofInt cartItem.Quantity)
          Float64.zero
      let (order, s1) :=
        dbCreateOrder s
          { ID := 0, UserID := userID, Items := [], Total := total, Status := "pending",
            DeletedAt := false }
      let s2 :=
        cart.Items.foldl (fun st cartItem => (dbCreateOrderItem st (orderItemOf order.ID cartItem)).2)
          s1
      let s3 := dbDeleteCartItems s2 cart.ID
      let s4 := dbDeleteCart s3 cart
      (⟨StatusCreated, .order "Order created successfully" (dbReloadOrder s4 order)⟩, s4)

/-! ## Sequences of calls -/

/-- A call of one of the two handlers that write carts. -/
inductive Call where
  | addToCart (userID : Nat) (req : AddToCartRequest)
  | createOrder (userID : Nat)

/-- The store after one call. -/
def Call.apply (s : Store) : Call → Store
  | .addToCart userID req => (ShoppingCart.addToCart s userID req).2
  | .createOrder userID => (ShoppingCart.createOrder s userID).2

/-- The store after the calls of a list, made one after the other. -/
def runCalls (s : Store) (calls : List Call) : Store :=
  calls.foldl Call.apply s

/-- A call of one of the two handlers that write users. -/
inductive UserCall where
  | createUser (req : CreateUserRequest)
  | loginUser (req : LoginRequest) (rnd : RandomBytes)

/-- The store after one user call. -/
def UserCall.apply (ext : Extern) (s : Store) : UserCall → Store
  | .createUser req => (ShoppingCart.createUser ext s req).2
  | .loginUser req rnd => (ShoppingCart.loginUser ext s req rnd).2

/-- The store after the user calls of a list, made one after the other. -/
def runUserCalls (ext : Extern) (s : Store) (calls : List UserCall) : Store :=
  calls.foldl (UserCall.apply ext) s

/-- The live carts of a user. -/
def liveCarts (s : Store) (userID : Nat) : List Cart :=
  s.carts.filter (fun c => !c.DeletedAt && c.UserID == userID)

/-- The order `createOrder` inserts for a user whose cart lines are `lines`. -/
def newOrder (s : Store) (userID : Nat) (lines : List CartItem) : Order :=
  { ID := freshID s.orderSeq (s.orders.map Order.ID), UserID := userID, Items := [],
    Total := lines.foldl
      (fun total cartItem => total + cartItem.Item.Price * Float64.ofInt cartItem.Quantity)
      Float64.zero,
    Status := "pending", DeletedAt := false }

/-- The price of the item a key stands for in the catalog: the price on the first row of
`items` that is not deleted and has that key, and zero when there is no such row. -/
def catalogPrice (s : Store) (itemID : Nat) : Float64 :=
  match s.items.find? (fun i => !i.DeletedAt && i.ID == itemID) with
  | some item => item.Price
  | none => Float64.zero

/-- The rows of `cart_items` that belong to a cart. -/
def cartLines (s : Store) (cartID : Nat) : List CartItem :=
  s.cartItems.filter (fun ci => ci.CartID == cartID)

/-! ## Example stores -/

/-- The catalog of `seedTestData` and nothing else. -/
def seededStore : Store :=
  { users := [],
    items := [⟨1, "Test Laptop", "Test laptop", Float64.ofDecimal 99999 2, false⟩,
              ⟨2, "Test Mouse", "Test mouse", Float64.ofDecimal 2999 2, false⟩],
    carts := [], cartItems := [], orders := [], orderItems := [],
    userSeq := 0, cartSeq := 0, cartItemSeq := 0, orderSeq := 0, orderItemSeq := 0 }

/-- User 7 holds a cart with two laptops and one mouse. -/
def cartStore : Store :=
  { seededStore with
    carts := [⟨1, 7, [], false⟩],
    cartItems := [⟨1, 1, 1, Item.zero, 2⟩, ⟨2, 1, 2, Item.zero, 1⟩],
    cartSeq := 1, cartItemSeq := 2 }

/-- User 7 holds a cart with three laptops. -/
def tripleStore : Store :=
  { seededStore with
    carts := [⟨1, 7, [], false⟩],
    cartItems := [⟨1, 1, 1, Item.zero, 3⟩],
    cartSeq := 1, cartItemSeq := 1 }

/-- User 7 holds a cart without lines. -/
def emptyCartStore : Store :=
  { seededStore with carts := [⟨1, 7, [], false⟩], cartSeq := 1 }

/-- A stand-in for the validator and `bcrypt`, for running the user handlers. -/
def demoExtern : Extern :=
  { isEmail := fun e => decide ('@' ∈ e.data),
    generateFromPassword := fun p => some ("hash:" ++ p),
    compareHashAndPassword := fun h p => h == "hash:" ++ p }

def demoBytes1 : RandomBytes := ⟨List.replicate 16 0xab, by decide⟩

def demoBytes2 : RandomBytes := ⟨List.replicate 16 0xcd, by decide⟩

/-- The seeded store after `createUser` has registered one user, who has not logged in. -/
def registeredStore : Store :=
  (createUser demoExtern seededStore ⟨"alice", "alice@example.com", "password"⟩).2

/-! # Theorems -/

/-! ## The query layer -/

theorem dbFirst_eq_none {α : Type} (key : α → Nat) (l : List α) :
    dbFirst key l = none ↔ l = [] := by
  cases l with
  | nil => simp [dbFirst]
  | cons x xs =>
    simp only [dbFirst]
    cases dbFirst key xs with
    | none => simp
    | some y => by_cases h : key x ≤ key y <;> simp [h]

theorem dbFirst_mem {α : Type} (key : α → Nat) (l : List α) (x : α)
    (h : dbFirst key l = some x) : x ∈ l := by
  induction l generalizing x with
  | nil => simp [dbFirst] at h
  | cons a as ih =>
    simp only [dbFirst] at h
    cases hr : dbFirst key as with
    | none =>
      rw [hr] at h
      simp only [Option.some.injEq] at h
      simp [h]
    | some y =>
      rw [hr] at h
      by_cases hk : key a ≤ key y
      · simp only [hk, if_true, Option.some.injEq] at h
        simp [h]
      · simp only [hk, if_false, Option.some.injEq] at h
        have := ih y hr
        simp [← h, this]

theorem dbFirst_singleton {α : Type} (key : α → Nat) (x : α) : dbFirst key [x] = some x := by
  simp [dbFirst]

theorem dbFirst_map {α : Type} (key : α → Nat) (f : α → α) (hf : ∀ x, key (f x) = key x)
    (l : List α) : dbFirst key (l.map f) = (dbFirst key l).map f := by
  induction l with
  | nil => simp [dbFirst]
  | cons a as ih =>
    simp only [List.map_cons, dbFirst, ih]
    cases dbFirst key as with
    | none => simp
    | some y =>
      simp only [Option.map_some', hf]
      by_cases hk : key a ≤ key y <;> simp [hk]

/-! ## createOrder -/

theorem foldl_createOrderItem (orderID : Nat) (lines : List CartItem) (st : Store) :
    ∃ created seq,
      lines.foldl (fun st ci => (dbCreateOrderItem st (orderItemOf orderID ci)).2) st
        = { st with orderItems := st.orderItems ++ created, orderItemSeq := seq } ∧
      created.map (fun oi => { oi with ID := 0 }) = lines.map (orderItemOf orderID) := by
  induction lines generalizing st with
  | nil => exact ⟨[], st.orderItemSeq, by simp, by simp⟩
  | cons ci rest ih =>
    obtain ⟨created, seq, h1, h2⟩ := ih (dbCreateOrderItem st (orderItemOf orderID ci)).2
    refine ⟨(dbCreateOrderItem st (orderItemOf orderID ci)).1 :: created, seq, ?_, ?_⟩
    · rw [List.foldl_cons, h1]
      simp [dbCreateOrderItem]
    · simp only [List.map_cons, h2]
      simp [dbCreateOrderItem, orderItemOf]

theorem createOrder_success (s : Store) (userID : Nat) (cart : Cart)
    (hcart : dbFirstCartByUser s userID = some cart)
    (hne : dbPreloadCartItems s cart.ID ≠ []) :
    ∃ created,
      (createOrder s userID).1.status = StatusCreated ∧
      (createOrder s userID).1.body = .order "Order created successfully"
        (dbReloadOrder (createOrder s userID).2
          (newOrder s userID (dbPreloadCartItems s cart.ID))) ∧
      (createOrder s userID).2.orders
        = s.orders ++ [newOrder s userID (dbPreloadCartItems s cart.ID)] ∧
      (createOrder s userID).2.orderItems = s.orderItems ++ created ∧
      created.map (fun oi => { oi with ID := 0 })
        = (dbPreloadCartItems s cart.ID).map
            (orderItemOf (newOrder s userID (dbPreloadCartItems s cart.ID)).ID) ∧
      (createOrder s userID).2.cartItems
        = s.cartItems.filter (fun ci => !(ci.CartID == cart.ID)) ∧
      (createOrder s userID).2.carts = (dbDeleteCart s cart).carts ∧
      (createOrder s userID).2.items = s.items := by
  obtain ⟨created, seq, h1, h2⟩ :=
    foldl_createOrderItem (newOrder s userID (dbPreloadCartItems s cart.ID)).ID
      (dbPreloadCartItems s cart.ID)
      (dbCreateOrder s
        { ID := 0, UserID := userID, Items := [],
          Total := (newOrder s userID (dbPreloadCartItems s cart.ID)).Total,
          Status := "pending", DeletedAt := false }).2
  refine ⟨created, ?_⟩
  have hlen : (dbPreloadCartItems s cart.ID).length ≠ 0 := by
    simpa [List.length_eq_zero] using hne
  simp only [createOrder, dbFirstCartPreloaded, hcart, Option.map_some', hlen, if_false]
  simp only [newOrder, dbCreateOrder] at h1 h2 ⊢
  rw [h1]
  refine ⟨trivial, trivial, ?_, ?_, h2, ?_, ?_, ?_⟩
  · simp [dbDeleteCart, dbDeleteCartItems]
    split <;> rfl
  · simp [dbDeleteCart, dbDeleteCartItems]
    split <;> rfl
  · simp [dbDeleteCart, dbDeleteCartItems]
    split <;> rfl
  · simp [dbDeleteCart, dbDeleteCartItems]
    split <;> rfl
  · simp [dbDeleteCart, dbDeleteCartItems]
    split <;> rfl

theorem lt_freshID (seq : Nat) (ids : List Nat) (x : Nat) (h : x ∈ ids) :
    x < freshID seq ids := by
  have hmax : ∀ l : List Nat, ∀ y ∈ l, y ≤ l.foldr max 0 := by
    intro l
    induction l with
    | nil => simp
    | cons a as ih =>
      intro y hy
      simp only [List.mem_cons] at hy
      simp only [List.foldr_cons]
      rcases hy with rfl | hy
      · exact le_max_left _ _
      · exact le_trans (ih y hy) (le_max_right _ _)
  have := hmax ids x h
  unfold freshID
  have h2 : ids.foldr max 0 ≤ max seq (ids.foldr max 0) := le_max_right _ _
  omega

theorem freshID_pos (seq : Nat) (ids : List Nat) : freshID seq ids ≠ 0 := by
  unfold freshID
  omega

/-- When every order item references an order row, none references the key of the order
`createOrder` is about to insert. -/
theorem orderItems_not_fresh (s : Store)
    (href : ∀ oi ∈ s.orderItems, ∃ o ∈ s.orders, o.ID = oi.OrderID) :
    s.orderItems.filter (fun oi => oi.OrderID == freshID s.orderSeq (s.orders.map Order.ID))
      = [] := by
  rw [List.filter_eq_nil_iff]
  intro oi hoi
  obtain ⟨o, ho, hid⟩ := href oi hoi
  have := lt_freshID s.orderSeq (s.orders.map Order.ID) o.ID (List.mem_map_of_mem _ ho)
  simp only [beq_iff_eq]
  omega

theorem dbFirst_eq_head {α : Type} (key : α → Nat) (l : List α) (k : Nat)
    (h : ∀ x ∈ l, key x = k) : dbFirst key l = l.head? := by
  induction l with
  | nil => rfl
  | cons x xs ih =>
    have hx : key x = k := h x (List.mem_cons_self _ _)
    have hxs : ∀ y ∈ xs, key y = k := fun y hy => h y (List.mem_cons_of_mem _ hy)
    simp only [dbFirst, ih hxs, List.head?_cons]
    cases xs with
    | nil => rfl
    | cons y ys =>
      have hy : key y = k := hxs y (List.mem_cons_self _ _)
      simp [hx, hy]

theorem dbFirst_of_least {α : Type} (key : α → Nat) (l : List α) (row : α)
    (hmem : row ∈ l) (hleast : ∀ c ∈ l, c ≠ row → key row < key c) :
    dbFirst key l = some row := by
  induction l with
  | nil => simp at hmem
  | cons x xs ih =>
    simp only [dbFirst]
    by_cases hx : x = row
    · subst hx
      cases hr : dbFirst key xs with
      | none => rfl
      | some y =>
        have hy : y ∈ xs := dbFirst_mem key xs y hr
        by_cases hyx : y = x
        · simp [hyx]
        · have := hleast y (List.mem_cons_of_mem _ hy) hyx
          have hle : key x ≤ key y := Nat.le_of_lt this
          simp [hle]
    · have hrow : row ∈ xs := by
        rcases List.mem_cons.mp hmem with h | h
        · exact absurd h.symm hx
        · exact h
      rw [ih hrow (fun c hc hne => hleast c (List.mem_cons_of_mem _ hc) hne)]
      have := hleast x (List.mem_cons_self _ _) hx
      have hnle : ¬ key x ≤ key row := Nat.not_le_of_gt this
      simp [hnle]

/-- The lookup of `createOrder` finds the live cart of the user that has the least key. -/
theorem dbFirstCartByUser_of_least (s : Store) (userID : Nat) (row : Cart)
    (hrow : row ∈ liveCarts s userID)
    (hleast : ∀ c ∈ liveCarts s userID, c ≠ row → row.ID < c.ID) :
    dbFirstCartByUser s userID = some { row with Items := [] } := by
  simp only [liveCarts] at hrow hleast
  simp [dbFirstCartByUser, dbFirst_of_least Cart.ID _ row hrow hleast]

theorem head?_filter_eq_find? {α : Type} (p : α → Bool) (l : List α) :
    (l.filter p).head? = l.find? p := by
  induction l with
  | nil => rfl
  | cons x xs ih =>
    by_cases hx : p x = true
    · simp [List.filter_cons, List.find?_cons, hx]
    · simp [List.filter_cons, List.find?_cons, hx, ih]

/-- The item `Preload("Items.Item")` resolves carries the catalog price of its key. -/
theorem dbItemByID_price (s : Store) (itemID : Nat) :
    ((dbItemByID s itemID).getD Item.zero).Price = catalogPrice s itemID := by
  have hkey : ∀ x ∈ s.items.filter (fun i => !i.DeletedAt && i.ID == itemID),
      x.ID = itemID := by
    intro x hx
    have := (List.mem_filter.mp hx).2
    simp only [Bool.and_eq_true, beq_iff_eq] at this
    exact this.2
  rw [dbItemByID, dbFirst_eq_head Item.ID _ itemID hkey, head?_filter_eq_find?, catalogPrice]
  cases s.items.find? (fun i => !i.DeletedAt && i.ID == itemID) with
  | none => rfl
  | some item => rfl

/-- The catalog price of a key that exactly one live row of `items` has is the price on
that row. -/
theorem catalogPrice_of_unique (s : Store) (item : Item) (hmem : item ∈ s.items)
    (hlive : item.DeletedAt = false)
    (huniq : ∀ it ∈ s.items, it.DeletedAt = false → it.ID = item.ID → it = item) :
    catalogPrice s item.ID = item.Price := by
  unfold catalogPrice
  cases hf : s.items.find? (fun i => !i.DeletedAt && i.ID == item.ID) with
  | none =>
    exfalso
    have := List.find?_eq_none.mp hf item hmem
    simp [hlive] at this
  | some found =>
    have hp := List.find?_some hf
    simp only [Bool.and_eq_true, beq_iff_eq, Bool.not_eq_true'] at hp
    have := huniq found (List.mem_of_find?_eq_some hf) hp.1 hp.2
    rw [this]

theorem catalogPrice_of_missing (s : Store) (itemID : Nat)
    (h : ∀ it ∈ s.items, it.DeletedAt = false → it.ID ≠ itemID) :
    catalogPrice s itemID = Float64.zero := by
  unfold catalogPrice
  cases hf : s.items.find? (fun i => !i.DeletedAt && i.ID == itemID) with
  | none => rfl
  | some found =>
    exfalso
    have hp := List.find?_some hf
    simp only [Bool.and_eq_true, beq_iff_eq, Bool.not_eq_true'] at hp
    exact h found (List.mem_of_find?_eq_some hf) hp.1 hp.2

/-- The columns of the order items `createOrder` inserts, line by line. -/
theorem createOrder_columns (s : Store) (cartID orderID : Nat) (created : List OrderItem)
    (hmap : created.map (fun oi => { oi with ID := 0 })
      = (dbPreloadCartItems s cartID).map (orderItemOf orderID)) :
    created.map (fun oi => (oi.OrderID, oi.ItemID, oi.Quantity, oi.Price))
      = (cartLines s cartID).map
          (fun ci => (orderID, ci.ItemID, ci.Quantity, catalogPrice s ci.ItemID)) := by
  have h1 := congrArg
    (List.map (fun oi : OrderItem => (oi.OrderID, oi.ItemID, oi.Quantity, oi.Price))) hmap
  simp only [List.map_map] at h1
  have h3 : ((fun oi : OrderItem => (oi.OrderID, oi.ItemID, oi.Quantity, oi.Price)) ∘
      fun oi : OrderItem => { oi with ID := 0 })
        = fun oi => (oi.OrderID, oi.ItemID, oi.Quantity, oi.Price) := rfl
  rw [h3] at h1
  rw [h1]
  simp [dbPreloadCartItems, cartLines, orderItemOf, List.map_map, Function.comp_def,
    dbItemByID_price]

/-- Accumulating over a list is accumulating over its columns. -/
theorem foldl_columns {α : Type} (g : Float64 → Float64 → Int → Float64)
    (price : α → Float64) (qty : α → Int) (l : List α) (a : Float64) :
    l.foldl (fun total x => g total (price x) (qty x)) a
      = (l.map (fun x => (price x, qty x))).foldl (fun total pq => g total pq.1 pq.2) a := by
  induction l generalizing a with
  | nil => rfl
  | cons x xs ih => simp [ih]

/-- C1, as amended: when the user has a cart with at least one line (`row` is the user's
live cart with the least key, the one the lookup takes), `createOrder` inserts one order
whose total is the `float64` accumulated from zero, line by line in storage order, by
adding the `float64` product of the catalog price of the line's item and the converted
quantity; accumulating price times quantity in the same way over the order items it
inserts for that order gives the same total (and, in a store whose order items all
reference an order, these are exactly the items attached to the new order). -/
theorem createOrder_total_accumulates (s : Store) (userID : Nat) (row : Cart)
    (hrow : row ∈ liveCarts s userID)
    (hleast : ∀ c ∈ liveCarts s userID, c ≠ row → row.ID < c.ID)
    (hne : cartLines s row.ID ≠ []) :
    ∃ order created,
      (createOrder s userID).2.orders = s.orders ++ [order] ∧
      (createOrder s userID).2.orderItems = s.orderItems ++ created ∧
      (∀ oi ∈ created, oi.OrderID = order.ID) ∧
      order.Total
        = (cartLines s row.ID).foldl
            (fun total ci => total + catalogPrice s ci.ItemID * Float64.ofInt ci.Quantity)
            Float64.zero ∧
      order.Total
        = created.foldl (fun total oi => total + oi.Price * Float64.ofInt oi.Quantity)
            Float64.zero ∧
      ((∀ oi ∈ s.orderItems, ∃ o ∈ s.orders, o.ID = oi.OrderID) →
        (createOrder s userID).2.orderItems.filter (fun oi => oi.OrderID == order.ID)
          = created) := by
  have hcart := dbFirstCartByUser_of_least s userID row hrow hleast
  have hne2 : dbPreloadCartItems s row.ID ≠ [] := by
    simpa [dbPreloadCartItems, cartLines] using hne
  obtain ⟨created, -, -, ho, hoi, hmap, -, -, -⟩ :=
    createOrder_success s userID { row with Items := [] } hcart hne2
  simp only at ho hmap
  have hcols := createOrder_columns s row.ID _ created hmap
  have hid : ∀ oi ∈ created,
      oi.OrderID = (newOrder s userID (dbPreloadCartItems s row.ID)).ID := by
    intro oi hmem
    have h2 : (oi.OrderID, oi.ItemID, oi.Quantity, oi.Price)
        ∈ created.map (fun oi => (oi.OrderID, oi.ItemID, oi.Quantity, oi.Price)) :=
      List.mem_map.mpr ⟨oi, hmem, rfl⟩
    rw [hcols] at h2
    obtain ⟨ci, -, hci⟩ := List.mem_map.mp h2
    exact (congrArg Prod.fst hci).symm
  have hpq : created.map (fun oi => (oi.Price, oi.Quantity))
      = (cartLines s row.ID).map (fun ci => (catalogPrice s ci.ItemID, ci.Quantity)) := by
    have := congrArg (List.map (fun c : Nat × Nat × Int × Float64 => (c.2.2.2, c.2.2.1))) hcols
    simpa [List.map_map, Function.comp_def] using this
  have htot : (newOrder s userID (dbPreloadCartItems s row.ID)).Total
      = (cartLines s row.ID).foldl
          (fun total ci => total + catalogPrice s ci.ItemID * Float64.ofInt ci.Quantity)
          Float64.zero := by
    simp only [newOrder, dbPreloadCartItems, cartLines, List.foldl_map, dbItemByID_price]
  refine ⟨newOrder s userID (dbPreloadCartItems s row.ID), created, ho, hoi, hid, htot, ?_, ?_⟩
  · rw [htot,
      foldl_columns (fun total p q => total + p * Float64.ofInt q) OrderItem.Price
        OrderItem.Quantity created,
      foldl_columns (fun total p q => total + p * Float64.ofInt q)
        (fun ci : CartItem => catalogPrice s ci.ItemID) CartItem.Quantity (cartLines s row.ID),
      hpq]
  · intro href
    rw [hoi, List.filter_append]
    have h0 := orderItems_not_fresh s href
    simp only [newOrder] at hid ⊢
    rw [h0, List.nil_append, List.filter_eq_self]
    intro oi hmem
    simp [hid oi hmem]

theorem createOrder_total_accumulates_witness :
    (⟨1, 7, [], false⟩ : Cart) ∈ liveCarts cartStore 7 ∧
    (∀ c ∈ liveCarts cartStore 7, c ≠ ⟨1, 7, [], false⟩ → 1 < c.ID) ∧
    cartLines cartStore 1 ≠ [] ∧
    cartStore.items.map (fun i => (i.ID, i.Price))
      = [(1, Float64.ofDecimal 99999 2), (2, Float64.ofDecimal 2999 2)] ∧
    cartStore.cartItems.map (fun ci => (ci.CartID, ci.ItemID, ci.Quantity))
      = [(1, 1, 2), (1, 2, 1)] ∧
    (createOrder cartStore 7).2.orders.map Order.Total = [Float64.ofDecimal 202997 2] ∧
    ∃ order created,
      (createOrder cartStore 7).2.orders = cartStore.orders ++ [order] ∧
      (createOrder cartStore 7).2.orderItems = cartStore.orderItems ++ created ∧
      (∀ oi ∈ created, oi.OrderID = order.ID) ∧
      order.Total
        = (cartLines cartStore 1).foldl
            (fun total ci =>
              total + catalogPrice cartStore ci.ItemID * Float64.ofInt ci.Quantity)
            Float64.zero ∧
      order.Total
        = created.foldl (fun total oi => total + oi.Price * Float64.ofInt oi.Quantity)
            Float64.zero ∧
      ((∀ oi ∈ cartStore.orderItems, ∃ o ∈ cartStore.orders, o.ID = oi.OrderID) →
        (createOrder cartStore 7).2.orderItems.filter (fun oi => oi.OrderID == order.ID)
          = created) :=
  ⟨by decide, by decide, by decide, by decide, by decide, by decide!,
    createOrder_total_accumulates cartStore 7 ⟨1, 7, [], false⟩ (by decide) (by decide)
      (by decide)⟩

/-- C1 fails as stated: with one cart line of three items priced 999.99, the stored total
is the `float64` 2999.9700000000003 (6597003795958334 × 2 ^ -41), while three times the
exact number the price 999.99 stands for (8796005061277778 × 2 ^ -43) is a different
number: the product is rounded. -/
theorem createOrder_total_counterexample :
    cartLines tripleStore 1 = [⟨1, 1, 1, Item.zero, 3⟩] ∧
    catalogPrice tripleStore 1 = Float64.ofDecimal 99999 2 ∧
    Float64.ofDecimal 99999 2 = .finite false 8796005061277778 (-43) ∧
    (createOrder tripleStore 7).1.status = StatusCreated ∧
    (createOrder tripleStore 7).2.orders.map Order.Total
      = [.finite false 6597003795958334 (-41)] ∧
    (createOrder tripleStore 7).2.orderItems.map (fun oi => (oi.Price, oi.Quantity))
      = [(.finite false 8796005061277778 (-43), 3)] ∧
    (Float64.finite false 6597003795958334 (-41)).toRat
      ≠ (Float64.finite false 8796005061277778 (-43)).toRat * 3 := by
  refine ⟨by decide, by decide, by decide!, by decide, by decide!, by decide!, ?_⟩
  simp only [Float64.toRat]
  norm_num

/-- C2: when the user has a cart with `n ≥ 1` lines (`row` is the user's live cart with the
least key, the one the lookup takes), `createOrder` answers 201 and inserts exactly one
order, owned by the user and with status "pending", and exactly `n` order items, one per
cart line and in the same order, each carrying the new order's key, the line's item key and
quantity, and as price the price on the live row of `items` that has the line's item key
(zero when no live row has it); in a store whose order items all reference an order these
are exactly the items attached to the new order. -/
theorem createOrder_creates_order_and_items (s : Store) (userID : Nat) (row : Cart)
    (hrow : row ∈ liveCarts s userID)
    (hleast : ∀ c ∈ liveCarts s userID, c ≠ row → row.ID < c.ID)
    (hne : cartLines s row.ID ≠ []) :
    ∃ order created,
      (createOrder s userID).1.status = StatusCreated ∧
      (createOrder s userID).2.orders = s.orders ++ [order] ∧
      order.UserID = userID ∧ order.Status = "pending" ∧ order.DeletedAt = false ∧
      (createOrder s userID).2.orderItems = s.orderItems ++ created ∧
      created.length = (cartLines s row.ID).length ∧
      created.map (fun oi => (oi.OrderID, oi.ItemID, oi.Quantity))
        = (cartLines s row.ID).map (fun ci => (order.ID, ci.ItemID, ci.Quantity)) ∧
      created.map OrderItem.Price
        = (cartLines s row.ID).map (fun ci => catalogPrice s ci.ItemID) ∧
      (∀ oi ∈ created, ∀ item ∈ s.items, item.DeletedAt = false → item.ID = oi.ItemID →
        (∀ it ∈ s.items, it.DeletedAt = false → it.ID = item.ID → it = item) →
        oi.Price = item.Price) ∧
      (∀ oi ∈ created, (∀ it ∈ s.items, it.DeletedAt = false → it.ID ≠ oi.ItemID) →
        oi.Price = Float64.zero) ∧
      ((∀ oi ∈ s.orderItems, ∃ o ∈ s.orders, o.ID = oi.OrderID) →
        (createOrder s userID).2.orderItems.filter (fun oi => oi.OrderID == order.ID)
          = created) := by
  have hcart := dbFirstCartByUser_of_least s userID row hrow hleast
  have hne2 : dbPreloadCartItems s row.ID ≠ [] := by
    simpa [dbPreloadCartItems, cartLines] using hne
  obtain ⟨created, hst, -, ho, hoi, hmap, -, -, -⟩ :=
    createOrder_success s userID { row with Items := [] } hcart hne2
  simp only at ho hmap
  have hcols := createOrder_columns s row.ID _ created hmap
  have hline : ∀ oi ∈ created,
      oi.OrderID = (newOrder s userID (dbPreloadCartItems s row.ID)).ID ∧
      oi.Price = catalogPrice s oi.ItemID := by
    intro oi hmem
    have h2 : (oi.OrderID, oi.ItemID, oi.Quantity, oi.Price)
        ∈ created.map (fun oi => (oi.OrderID, oi.ItemID, oi.Quantity, oi.Price)) :=
      List.mem_map.mpr ⟨oi, hmem, rfl⟩
    rw [hcols] at h2
    obtain ⟨ci, -, hci⟩ := List.mem_map.mp h2
    simp only [Prod.mk.injEq] at hci
    obtain ⟨e1, e2, -, e4⟩ := hci
    exact ⟨e1.symm, by rw [← e4, e2]⟩
  refine ⟨newOrder s userID (dbPreloadCartItems s row.ID), created, hst, ho, rfl, rfl, rfl,
    hoi, ?_, ?_, ?_, ?_, ?_, ?_⟩
  · have := congrArg List.length hcols
    simpa using this
  · have := congrArg (List.map (fun c : Nat × Nat × Int × Float64 => (c.1, c.2.1, c.2.2.1)))
      hcols
    simpa [List.map_map, Function.comp_def] using this
  · have := congrArg (List.map (fun c : Nat × Nat × Int × Float64 => c.2.2.2)) hcols
    simpa [List.map_map, Function.comp_def] using this
  · intro oi hmem item hitem hlive hid huniq
    rw [(hline oi hmem).2, ← hid]
    exact catalogPrice_of_unique s item hitem hlive huniq
  · intro oi hmem hmissing
    rw [(hline oi hmem).2]
    exact catalogPrice_of_missing s oi.ItemID hmissing
  · intro href
    rw [hoi, List.filter_append]
    have h0 := orderItems_not_fresh s href
    have hid : ∀ oi ∈ created,
        oi.OrderID = freshID s.orderSeq (s.orders.map Order.ID) :=
      fun oi hmem => (hline oi hmem).1
    simp only [newOrder]
    rw [h0, List.nil_append, List.filter_eq_self]
    intro oi hmem
    simp [hid oi hmem]

theorem createOrder_creates_order_and_items_witness :
    (⟨1, 7, [], false⟩ : Cart) ∈ liveCarts cartStore 7 ∧
    (∀ c ∈ liveCarts cartStore 7, c ≠ ⟨1, 7, [], false⟩ → 1 < c.ID) ∧
    cartLines cartStore 1 ≠ [] ∧
    cartStore.items.map (fun i => (i.ID, i.Price, i.DeletedAt))
      = [(1, Float64.ofDecimal 99999 2, false), (2, Float64.ofDecimal 2999 2, false)] ∧
    cartStore.cartItems.map (fun ci => (ci.CartID, ci.ItemID, ci.Quantity))
      = [(1, 1, 2), (1, 2, 1)] ∧
    (createOrder cartStore 7).2.orders.map (fun o => (o.ID, o.UserID, o.Status))
      = [(1, 7, "pending")] ∧
    (createOrder cartStore 7).2.orderItems.map
        (fun oi => (oi.OrderID, oi.ItemID, oi.Quantity, oi.Price))
      = [(1, 1, 2, Float64.ofDecimal 99999 2), (1, 2, 1, Float64.ofDecimal 2999 2)] ∧
    ∃ order created,
      (createOrder cartStore 7).1.status = StatusCreated ∧
      (createOrder cartStore 7).2.orders = cartStore.orders ++ [order] ∧
      order.UserID = 7 ∧ order.Status = "pending" ∧ order.DeletedAt = false ∧
      (createOrder cartStore 7).2.orderItems = cartStore.orderItems ++ created ∧
      created.length = (cartLines cartStore 1).length ∧
      created.map (fun oi => (oi.OrderID, oi.ItemID, oi.Quantity))
        = (cartLines cartStore 1).map (fun ci => (order.ID, ci.ItemID, ci.Quantity)) ∧
      created.map OrderItem.Price
        = (cartLines cartStore 1).map (fun ci => catalogPrice cartStore ci.ItemID) ∧
      (∀ oi ∈ created, ∀ item ∈ cartStore.items, item.DeletedAt = false →
        item.ID = oi.ItemID →
        (∀ it ∈ cartStore.items, it.DeletedAt = false → it.ID = item.ID → it = item) →
        oi.Price = item.Price) ∧
      (∀ oi ∈ created, (∀ it ∈ cartStore.items, it.DeletedAt = false → it.ID ≠ oi.ItemID) →
        oi.Price = Float64.zero) ∧
      ((∀ oi ∈ cartStore.orderItems, ∃ o ∈ cartStore.orders, o.ID = oi.OrderID) →
        (createOrder cartStore 7).2.orderItems.filter (fun oi => oi.OrderID == order.ID)
          = created) :=
  ⟨by decide, by decide, by decide, by decide, by decide, by decide, by decide,
    createOrder_creates_order_and_items cartStore 7 ⟨1, 7, [], false⟩ (by decide) (by decide)
      (by decide)⟩

/-- C4: `createOrder` for a user without a live cart answers 404, and for a user whose cart
has no line it answers 400; in both cases the store is returned as it was, so no order and
no order item is created and carts and cart items are unchanged. -/
theorem createOrder_rejects_missing_or_empty_cart (s : Store) (userID : Nat) :
    (liveCarts s userID = [] →
      createOrder s userID = (⟨StatusNotFound, .error "Cart not found"⟩, s)) ∧
    (∀ cart, dbFirstCartByUser s userID = some cart → cartLines s cart.ID = [] →
      createOrder s userID = (⟨StatusBadRequest, .error "Cart is empty"⟩, s)) := by
  constructor
  · intro h
    simp only [liveCarts] at h
    simp [createOrder, dbFirstCartPreloaded, dbFirstCartByUser, h, dbFirst]
  · intro cart hcart hlines
    simp only [cartLines] at hlines
    simp [createOrder, dbFirstCartPreloaded, hcart, dbPreloadCartItems, hlines]

theorem createOrder_rejects_missing_or_empty_cart_witness :
    liveCarts seededStore 7 = [] ∧
    createOrder seededStore 7 = (⟨StatusNotFound, .error "Cart not found"⟩, seededStore) ∧
    dbFirstCartByUser emptyCartStore 7 = some ⟨1, 7, [], false⟩ ∧
    cartLines emptyCartStore 1 = [] ∧
    createOrder emptyCartStore 7
      = (⟨StatusBadRequest, .error "Cart is empty"⟩, emptyCartStore) :=
  ⟨by decide,
    (createOrder_rejects_missing_or_empty_cart seededStore 7).1 (by decide),
    by decide, by decide,
    (createOrder_rejects_missing_or_empty_cart emptyCartStore 7).2 ⟨1, 7, [], false⟩
      (by decide) (by decide)⟩

/-! ## Carts along a sequence of calls -/

theorem dbFirstCartByUser_eq_none (s : Store) (userID : Nat) :
    dbFirstCartByUser s userID = none ↔ liveCarts s userID = [] := by
  simp [dbFirstCartByUser, liveCarts, dbFirst_eq_none]

theorem dbFirstCartByUser_some (s : Store) (userID : Nat) (cart : Cart)
    (h : dbFirstCartByUser s userID = some cart) :
    ∃ row ∈ liveCarts s userID, cart = { row with Items := [] } := by
  simp only [dbFirstCartByUser, Option.map_eq_some'] at h
  obtain ⟨row, hrow, rfl⟩ := h
  exact ⟨row, dbFirst_mem _ _ _ hrow, rfl⟩

theorem dbSaveCartItem_carts (s : Store) (ci : CartItem) :
    (dbSaveCartItem s ci).2.carts = s.carts := by
  unfold dbSaveCartItem
  split <;> rfl

theorem upsert_carts (s1 : Store) (o : Option CartItem) (a : CartItem)
    (f : CartItem → CartItem) :
    (match o with
      | none => dbCreateCartItem s1 a
      | some ci => dbSaveCartItem s1 (f ci)).2.carts = s1.carts := by
  cases o with
  | none => rfl
  | some ci => exact dbSaveCartItem_carts s1 _

theorem addToCart_carts (s : Store) (userID : Nat) (req : AddToCartRequest) :
    (addToCart s userID req).2.carts = s.carts ∨
    (liveCarts s userID = [] ∧
      (addToCart s userID req).2.carts
        = s.carts ++ [⟨freshID s.cartSeq (s.carts.map Cart.ID), userID, [], false⟩]) := by
  unfold addToCart
  by_cases hb : req.binds = false
  · simp [hb]
  · simp only [hb, if_false]
    cases dbFirstItem s req.item_id with
    | none => simp
    | some item =>
      cases hc : dbFirstCartByUser s userID with
      | some cart =>
        left
        exact upsert_carts s _ _ (fun ci => { ci with Quantity := wrapInt (ci.Quantity + req.quantity) })
      | none =>
        right
        refine ⟨(dbFirstCartByUser_eq_none s userID).mp hc, ?_⟩
        exact upsert_carts _ _ _ (fun ci => { ci with Quantity := wrapInt (ci.Quantity + req.quantity) })

theorem createOrder_result (s : Store) (userID : Nat) :
    (createOrder s userID).1.status = StatusCreated →
      ∃ cart, dbFirstCartByUser s userID = some cart ∧ dbPreloadCartItems s cart.ID ≠ [] := by
  intro h
  cases hc : dbFirstCartByUser s userID with
  | none =>
    simp [createOrder, dbFirstCartPreloaded, hc, StatusCreated, StatusNotFound] at h
  | some cart =>
    refine ⟨cart, rfl, ?_⟩
    intro hl
    simp [createOrder, dbFirstCartPreloaded, hc, hl, StatusCreated, StatusBadRequest] at h

theorem createOrder_carts (s : Store) (userID : Nat) :
    (createOrder s userID).2.carts = s.carts ∨
    ∃ cart, dbFirstCartByUser s userID = some cart ∧
      (createOrder s userID).2.carts = (dbDeleteCart s cart).carts := by
  cases hc : dbFirstCartByUser s userID with
  | none =>
    left
    simp [createOrder, dbFirstCartPreloaded, hc]
  | some cart =>
    by_cases hl : dbPreloadCartItems s cart.ID = []
    · left
      simp [createOrder, dbFirstCartPreloaded, hc, hl]
    · right
      obtain ⟨created, -, -, -, -, -, -, h, -⟩ := createOrder_success s userID cart hc hl
      exact ⟨cart, rfl, h⟩

/-- Setting `deleted_at` on rows never adds a live cart. -/
theorem liveCarts_dbDeleteCart_length (s : Store) (cart : Cart) (userID : Nat) :
    (liveCarts (dbDeleteCart s cart) userID).length ≤ (liveCarts s userID).length := by
  unfold dbDeleteCart liveCarts
  split
  · exact le_refl _
  · simp only
    induction s.carts with
    | nil => simp
    | cons r rs ih =>
      simp only [List.map_cons, List.filter_cons]
      by_cases hr : r.ID = cart.ID ∧ r.DeletedAt = false
      · rw [if_pos hr]
        simp only [Bool.not_true, Bool.false_and, Bool.false_eq_true, if_false]
        split_ifs
        · simp only [List.length_cons]
          omega
        · exact ih
      · rw [if_neg hr]
        split_ifs
        · simp only [List.length_cons]
          omega
        · exact ih

theorem liveCarts_congr (s1 s2 : Store) (userID : Nat) (h : s1.carts = s2.carts) :
    liveCarts s1 userID = liveCarts s2 userID := by
  simp [liveCarts, h]

/-- One call keeps the two facts the cart handlers rely on: a user has at most one live
cart, and a live cart has a non-zero key. -/
theorem apply_preserves (s : Store) (call : Call)
    (h1 : ∀ u, (liveCarts s u).length ≤ 1)
    (h2 : ∀ c ∈ s.carts, c.DeletedAt = false → c.ID ≠ 0) :
    (∀ u, (liveCarts (Call.apply s call) u).length ≤ 1) ∧
    (∀ c ∈ (Call.apply s call).carts, c.DeletedAt = false → c.ID ≠ 0) := by
  cases call with
  | addToCart userID req =>
    simp only [Call.apply]
    rcases addToCart_carts s userID req with h | ⟨hnone, h⟩
    · exact ⟨fun u => by rw [liveCarts_congr _ s u h]; exact h1 u, by rw [h]; exact h2⟩
    · constructor
      · intro u
        have hu : liveCarts (addToCart s userID req).2 u
            = liveCarts s u ++ (if userID = u then
                [⟨freshID s.cartSeq (s.carts.map Cart.ID), userID, [], false⟩] else []) := by
          simp only [liveCarts, h, List.filter_append]
          by_cases hu : userID = u <;> simp [List.filter_cons, hu]
        rw [hu]
        by_cases hu2 : userID = u
        · subst hu2
          simp [hnone]
        · simpa [hu2] using h1 u
      · intro c hc hlive
        rw [h, List.mem_append] at hc
        rcases hc with hc | hc
        · exact h2 c hc hlive
        · simp only [List.mem_singleton] at hc
          subst hc
          exact freshID_pos _ _
  | createOrder userID =>
    simp only [Call.apply]
    rcases createOrder_carts s userID with h | ⟨cart, -, h⟩
    · exact ⟨fun u => by rw [liveCarts_congr _ s u h]; exact h1 u, by rw [h]; exact h2⟩
    · constructor
      · intro u
        rw [liveCarts_congr _ (dbDeleteCart s cart) u h]
        exact le_trans (liveCarts_dbDeleteCart_length s cart u) (h1 u)
      · intro c hc hlive
        rw [h] at hc
        unfold dbDeleteCart at hc
        split at hc
        · exact h2 c hc hlive
        · simp only [List.mem_map] at hc
          obtain ⟨r, hr, rfl⟩ := hc
          by_cases hcond : r.ID = cart.ID ∧ r.DeletedAt = false
          · simp [hcond] at hlive
          · simp only [hcond, if_false] at hlive ⊢
            exact h2 r hr hlive

theorem runCalls_preserves (calls : List Call) (s : Store)
    (h1 : ∀ u, (liveCarts s u).length ≤ 1)
    (h2 : ∀ c ∈ s.carts, c.DeletedAt = false → c.ID ≠ 0) :
    (∀ u, (liveCarts (runCalls s calls) u).length ≤ 1) ∧
    (∀ c ∈ (runCalls s calls).carts, c.DeletedAt = false → c.ID ≠ 0) := by
  induction calls generalizing s with
  | nil => exact ⟨h1, h2⟩
  | cons call rest ih =>
    obtain ⟨h1a, h2a⟩ := apply_preserves s call h1 h2
    exact ih (Call.apply s call) h1a h2a

/-- A store in which every cart row is soft-deleted has no live cart. -/
theorem liveCarts_of_all_deleted (s : Store) (h : ∀ c ∈ s.carts, c.DeletedAt = true)
    (u : Nat) : liveCarts s u = [] := by
  simp only [liveCarts, List.filter_eq_nil_iff]
  intro c hc
  simp [h c hc]

/-- C9: starting from a store without a live cart, after any sequence of `addToCart` and
`createOrder` calls, made one after the other for any users, items and quantities, every
user has at most one live cart. -/
theorem at_most_one_live_cart (s0 : Store) (calls : List Call)
    (h0 : ∀ c ∈ s0.carts, c.DeletedAt = true) (userID : Nat) :
    (liveCarts (runCalls s0 calls) userID).length ≤ 1 := by
  refine (runCalls_preserves calls s0 ?_ ?_).1 userID
  · intro u
    simp [liveCarts_of_all_deleted s0 h0 u]
  · intro c hc hlive
    simp [h0 c hc] at hlive

theorem at_most_one_live_cart_witness :
    (∀ c ∈ seededStore.carts, c.DeletedAt = true) ∧
    (liveCarts (runCalls seededStore
      [.addToCart 7 ⟨1, 2⟩, .addToCart 7 ⟨2, 1⟩, .createOrder 7, .addToCart 7 ⟨1, 1⟩]) 7).length
        ≤ 1 :=
  ⟨by decide, at_most_one_live_cart seededStore _ (by decide) 7⟩

/-- In a store where the user has at most one live cart and live carts have non-zero keys,
a successful `createOrder` leaves the user without a live cart and without a line of the
consumed cart. -/
theorem createOrder_clears_cart (s : Store) (userID : Nat)
    (h1 : (liveCarts s userID).length ≤ 1)
    (h2 : ∀ c ∈ s.carts, c.DeletedAt = false → c.ID ≠ 0)
    (hok : (createOrder s userID).1.status = StatusCreated) :
    liveCarts (createOrder s userID).2 userID = [] ∧
    (∀ cart, dbFirstCartByUser s userID = some cart →
      ∀ ci ∈ (createOrder s userID).2.cartItems, ci.CartID ≠ cart.ID) := by
  obtain ⟨cart, hcart, hne⟩ := createOrder_result s userID hok
  obtain ⟨created, -, -, -, -, -, hci, hcarts, -⟩ := createOrder_success s userID cart hcart hne
  obtain ⟨row, hrow, hceq⟩ := dbFirstCartByUser_some s userID cart hcart
  have hid : cart.ID = row.ID := by rw [hceq]
  have hrow2 : row ∈ s.carts ∧ row.DeletedAt = false ∧ row.UserID = userID := by
    simpa [liveCarts, and_assoc] using hrow
  have hnz : cart.ID ≠ 0 := by
    rw [hid]
    exact h2 row hrow2.1 hrow2.2.1
  have hsingle : liveCarts s userID = [row] := by
    cases hl : liveCarts s userID with
    | nil => rw [hl] at hrow; simp at hrow
    | cons a rest =>
      rw [hl] at hrow h1
      cases rest with
      | nil =>
        simp only [List.mem_singleton] at hrow
        rw [hrow]
      | cons b rest2 =>
        simp only [List.length_cons] at h1
        omega
  constructor
  · rw [liveCarts_congr _ (dbDeleteCart s cart) userID hcarts]
    simp only [liveCarts, dbDeleteCart, hnz, if_false, List.filter_eq_nil_iff, List.mem_map]
    rintro c ⟨r, hr, rfl⟩
    by_cases hcond : r.ID = cart.ID ∧ r.DeletedAt = false
    · simp [hcond]
    · simp only [hcond, if_false]
      intro hlive
      have hmem : r ∈ liveCarts s userID := List.mem_filter.mpr ⟨hr, hlive⟩
      rw [hsingle, List.mem_singleton] at hmem
      exact hcond ⟨by rw [hmem, hid], by rw [hmem]; exact hrow2.2.1⟩
  · intro cart2 hcart2 ci hmem
    rw [hcart] at hcart2
    simp only [Option.some.injEq] at hcart2
    subst hcart2
    rw [hci] at hmem
    simpa using (List.mem_filter.mp hmem).2

theorem getCart_of_no_live_cart (s : Store) (userID : Nat) (h : liveCarts s userID = []) :
    getCart s userID = ⟨StatusNotFound, .error "Cart not found"⟩ := by
  have := (dbFirstCartByUser_eq_none s userID).mpr h
  simp [getCart, dbFirstCartPreloaded, this]

/-- C3: in a store reached from one without a live cart by `addToCart` and `createOrder`
calls made one after the other, a successful `createOrder` for a user leaves that user
without a live cart and leaves no line of the consumed cart, and a following `getCart` for
the user answers 404. -/
theorem createOrder_consumes_cart (s0 : Store) (calls : List Call) (userID : Nat)
    (h0 : ∀ c ∈ s0.carts, c.DeletedAt = true)
    (hok : (createOrder (runCalls s0 calls) userID).1.status = StatusCreated) :
    liveCarts (createOrder (runCalls s0 calls) userID).2 userID = [] ∧
    (∀ cart, dbFirstCartByUser (runCalls s0 calls) userID = some cart →
      ∀ ci ∈ (createOrder (runCalls s0 calls) userID).2.cartItems, ci.CartID ≠ cart.ID) ∧
    getCart (createOrder (runCalls s0 calls) userID).2 userID
      = ⟨StatusNotFound, .error "Cart not found"⟩ := by
  have hinv := runCalls_preserves calls s0
    (fun u => by simp [liveCarts_of_all_deleted s0 h0 u])
    (fun c hc hlive => by simp [h0 c hc] at hlive)
  have hclear := createOrder_clears_cart (runCalls s0 calls) userID (hinv.1 userID) hinv.2 hok
  exact ⟨hclear.1, hclear.2, getCart_of_no_live_cart _ userID hclear.1⟩

theorem createOrder_consumes_cart_witness :
    (∀ c ∈ seededStore.carts, c.DeletedAt = true) ∧
    (createOrder (runCalls seededStore [.addToCart 7 ⟨1, 2⟩, .addToCart 7 ⟨2, 1⟩]) 7).1.status
      = StatusCreated ∧
    liveCarts
      (createOrder (runCalls seededStore [.addToCart 7 ⟨1, 2⟩, .addToCart 7 ⟨2, 1⟩]) 7).2 7
        = [] ∧
    (∀ cart,
      dbFirstCartByUser (runCalls seededStore [.addToCart 7 ⟨1, 2⟩, .addToCart 7 ⟨2, 1⟩]) 7
        = some cart →
      ∀ ci ∈ (createOrder
          (runCalls seededStore [.addToCart 7 ⟨1, 2⟩, .addToCart 7 ⟨2, 1⟩]) 7).2.cartItems,
        ci.CartID ≠ cart.ID) ∧
    getCart (createOrder (runCalls seededStore [.addToCart 7 ⟨1, 2⟩, .addToCart 7 ⟨2, 1⟩]) 7).2 7
      = ⟨StatusNotFound, .error "Cart not found"⟩ :=
  ⟨by decide, by decide,
    createOrder_consumes_cart seededStore [.addToCart 7 ⟨1, 2⟩, .addToCart 7 ⟨2, 1⟩] 7
      (by decide) (by decide)⟩

/-! ## Rows that reference rows -/

theorem createOrder_store (s : Store) (userID : Nat) :
    (createOrder s userID).2 = s ∨
    ∃ cart, dbFirstCartByUser s userID = some cart ∧ dbPreloadCartItems s cart.ID ≠ [] := by
  cases hc : dbFirstCartByUser s userID with
  | none =>
    left
    simp [createOrder, dbFirstCartPreloaded, hc]
  | some cart =>
    by_cases hl : dbPreloadCartItems s cart.ID = []
    · left
      simp [createOrder, dbFirstCartPreloaded, hc, hl]
    · exact Or.inr ⟨cart, rfl, hl⟩

theorem createOrder_references (s : Store) (userID : Nat)
    (h1 : ∀ ci ∈ s.cartItems, ∃ c ∈ s.carts, c.ID = ci.CartID)
    (h2 : ∀ oi ∈ s.orderItems, ∃ o ∈ s.orders, o.ID = oi.OrderID) :
    (∀ ci ∈ (createOrder s userID).2.cartItems,
      ∃ c ∈ (createOrder s userID).2.carts, c.ID = ci.CartID) ∧
    (∀ oi ∈ (createOrder s userID).2.orderItems,
      ∃ o ∈ (createOrder s userID).2.orders, o.ID = oi.OrderID) := by
  rcases createOrder_store s userID with h | ⟨cart, hcart, hne⟩
  · rw [h]
    exact ⟨h1, h2⟩
  · obtain ⟨created, -, -, ho, hoi, hmap, hci, hcarts, -⟩ :=
      createOrder_success s userID cart hcart hne
    constructor
    · intro ci hmem
      rw [hci] at hmem
      obtain ⟨c, hc, hid⟩ := h1 ci (List.mem_filter.mp hmem).1
      rw [hcarts]
      unfold dbDeleteCart
      split
      · exact ⟨c, hc, hid⟩
      · by_cases hcond : c.ID = cart.ID ∧ c.DeletedAt = false
        · exact ⟨{ c with DeletedAt := true },
            List.mem_map.mpr ⟨c, hc, by simp [hcond]⟩, hid⟩
        · exact ⟨c, List.mem_map.mpr ⟨c, hc, by simp [hcond]⟩, hid⟩
    · intro oi hmem
      rw [hoi] at hmem
      rw [ho]
      rcases List.mem_append.mp hmem with hold | hnew
      · obtain ⟨o, ho2, hid⟩ := h2 oi hold
        exact ⟨o, List.mem_append_left _ ho2, hid⟩
      · refine ⟨_, List.mem_append_right _ (List.mem_singleton_self _), ?_⟩
        have h3 : ({ oi with ID := 0 } : OrderItem)
            ∈ created.map (fun oi => { oi with ID := 0 }) :=
          List.mem_map.mpr ⟨oi, hnew, rfl⟩
        rw [hmap] at h3
        obtain ⟨ci, -, hci2⟩ := List.mem_map.mp h3
        have := congrArg OrderItem.OrderID hci2
        simpa [orderItemOf] using this

theorem dbCreateCartItem_references (s : Store) (ci : CartItem)
    (h1 : ∀ r ∈ s.cartItems, ∃ c ∈ s.carts, c.ID = r.CartID)
    (hci : ∃ c ∈ s.carts, c.ID = ci.CartID) :
    ∀ r ∈ (dbCreateCartItem s ci).2.cartItems,
      ∃ c ∈ (dbCreateCartItem s ci).2.carts, c.ID = r.CartID := by
  intro r hr
  simp only [dbCreateCartItem, List.mem_append, List.mem_singleton] at hr ⊢
  rcases hr with hr | rfl
  · exact h1 r hr
  · exact hci

theorem dbSaveCartItem_references (s : Store) (ci : CartItem)
    (h1 : ∀ r ∈ s.cartItems, ∃ c ∈ s.carts, c.ID = r.CartID)
    (hci : ∃ c ∈ s.carts, c.ID = ci.CartID) :
    ∀ r ∈ (dbSaveCartItem s ci).2.cartItems,
      ∃ c ∈ (dbSaveCartItem s ci).2.carts, c.ID = r.CartID := by
  unfold dbSaveCartItem
  split
  · exact dbCreateCartItem_references s ci h1 hci
  · intro r hr
    simp only [List.mem_map] at hr
    obtain ⟨r0, hr0, rfl⟩ := hr
    by_cases hid : r0.ID = ci.ID
    · simpa [hid] using hci
    · simpa [hid] using h1 r0 hr0

theorem dbFirstCartItem_cart (s : Store) (cartID itemID : Nat) (ci : CartItem)
    (h : dbFirstCartItem s cartID itemID = some ci) : ci.CartID = cartID := by
  simp only [dbFirstCartItem, Option.map_eq_some'] at h
  obtain ⟨r, hr, rfl⟩ := h
  have := (List.mem_filter.mp (dbFirst_mem _ _ _ hr)).2
  simp only [Bool.and_eq_true, beq_iff_eq] at this
  exact this.1

theorem upsert_references (s1 : Store) (cartID itemID : Nat) (q : Int)
    (h1 : ∀ r ∈ s1.cartItems, ∃ c ∈ s1.carts, c.ID = r.CartID)
    (hcart : ∃ c ∈ s1.carts, c.ID = cartID) :
    ∀ r ∈ (match dbFirstCartItem s1 cartID itemID with
        | none =>
          dbCreateCartItem s1
            { ID := 0, CartID := cartID, ItemID := itemID, Item := Item.zero, Quantity := q }
        | some cartItem =>
          dbSaveCartItem s1
            { cartItem with Quantity := wrapInt (cartItem.Quantity + q) }).2.cartItems,
      ∃ c ∈ (match dbFirstCartItem s1 cartID itemID with
        | none =>
          dbCreateCartItem s1
            { ID := 0, CartID := cartID, ItemID := itemID, Item := Item.zero, Quantity := q }
        | some cartItem =>
          dbSaveCartItem s1
            { cartItem with Quantity := wrapInt (cartItem.Quantity + q) }).2.carts,
        c.ID = r.CartID := by
  cases hf : dbFirstCartItem s1 cartID itemID with
  | none => exact dbCreateCartItem_references s1 _ h1 hcart
  | some ci =>
    refine dbSaveCartItem_references s1 _ h1 ?_
    simpa [dbFirstCartItem_cart s1 cartID itemID ci hf] using hcart

theorem upsert_orders (s1 : Store) (o : Option CartItem) (a : CartItem)
    (f : CartItem → CartItem) :
    (match o with
      | none => dbCreateCartItem s1 a
      | some ci => dbSaveCartItem s1 (f ci)).2.orders = s1.orders ∧
    (match o with
      | none => dbCreateCartItem s1 a
      | some ci => dbSaveCartItem s1 (f ci)).2.orderItems = s1.orderItems := by
  cases o with
  | none => exact ⟨rfl, rfl⟩
  | some ci =>
    simp only [dbSaveCartItem]
    split <;> exact ⟨rfl, rfl⟩

theorem addToCart_references (s : Store) (userID : Nat) (req : AddToCartRequest)
    (h1 : ∀ ci ∈ s.cartItems, ∃ c ∈ s.carts, c.ID = ci.CartID)
    (h2 : ∀ oi ∈ s.orderItems, ∃ o ∈ s.orders, o.ID = oi.OrderID) :
    (∀ ci ∈ (addToCart s userID req).2.cartItems,
      ∃ c ∈ (addToCart s userID req).2.carts, c.ID = ci.CartID) ∧
    (∀ oi ∈ (addToCart s userID req).2.orderItems,
      ∃ o ∈ (addToCart s userID req).2.orders, o.ID = oi.OrderID) := by
  unfold addToCart
  by_cases hb : req.binds = false
  · simp only [hb, if_true]
    exact ⟨h1, h2⟩
  · simp only [hb, if_false]
    cases dbFirstItem s req.item_id with
    | none => exact ⟨h1, h2⟩
    | some item =>
      cases hc : dbFirstCartByUser s userID with
      | some cart =>
        obtain ⟨row, hrow, hceq⟩ := dbFirstCartByUser_some s userID cart hc
        have hmem : ∃ c ∈ s.carts, c.ID = cart.ID :=
          ⟨row, (List.mem_filter.mp hrow).1, by rw [hceq]⟩
        constructor
        · exact upsert_references s cart.ID req.item_id req.quantity h1 hmem
        · have := upsert_orders s (dbFirstCartItem s cart.ID req.item_id)
            { ID := 0, CartID := cart.ID, ItemID := req.item_id, Item := Item.zero,
              Quantity := req.quantity }
            (fun ci => { ci with Quantity := wrapInt (ci.Quantity + req.quantity) })
          intro oi hoi
          have hoi2 : oi ∈ s.orderItems := by
            rw [← this.2]
            exact hoi
          obtain ⟨o, ho, hid⟩ := h2 oi hoi2
          exact ⟨o, by rw [← this.1] at ho; exact ho, hid⟩
      | none =>
        have h1a : ∀ r ∈ (dbCreateCart s
              { ID := 0, UserID := userID, Items := [], DeletedAt := false }).2.cartItems,
            ∃ c ∈ (dbCreateCart s
              { ID := 0, UserID := userID, Items := [], DeletedAt := false }).2.carts,
              c.ID = r.CartID := by
          intro r hr
          obtain ⟨c, hc2, hid⟩ := h1 r hr
          exact ⟨c, List.mem_append_left _ hc2, hid⟩
        have hmem : ∃ c ∈ (dbCreateCart s
              { ID := 0, UserID := userID, Items := [], DeletedAt := false }).2.carts,
            c.ID = (dbCreateCart s
              { ID := 0, UserID := userID, Items := [], DeletedAt := false }).1.ID :=
          ⟨_, List.mem_append_right _ (List.mem_singleton_self _), rfl⟩
        constructor
        · exact upsert_references _ _ req.item_id req.quantity h1a hmem
        · have := upsert_orders
            (dbCreateCart s { ID := 0, UserID := userID, Items := [], DeletedAt := false }).2
            (dbFirstCartItem
              (dbCreateCart s { ID := 0, UserID := userID, Items := [], DeletedAt := false }).2
              (dbCreateCart s { ID := 0, UserID := userID, Items := [], DeletedAt := false }).1.ID
              req.item_id)
            { ID := 0,
              CartID := (dbCreateCart s
                { ID := 0, UserID := userID, Items := [], DeletedAt := false }).1.ID,
              ItemID := req.item_id, Item := Item.zero, Quantity := req.quantity }
            (fun ci => { ci with Quantity := wrapInt (ci.Quantity + req.quantity) })
          intro oi hoi
          have hoi2 : oi ∈ s.orderItems := by
            have e := this.2
            simp only [dbCreateCart] at e
            rw [← e]
            exact hoi
          obtain ⟨o, ho, hid⟩ := h2 oi hoi2
          refine ⟨o, ?_, hid⟩
          have e := this.1
          simp only [dbCreateCart] at e
          rw [← e] at ho
          exact ho

/-- Every store reached by `addToCart` and `createOrder` calls from a store in which every
cart item references a cart row and every order item an order row is such a store; a store
without cart items and order items is one. -/
theorem runCalls_references (calls : List Call) (s : Store)
    (h1 : ∀ ci ∈ s.cartItems, ∃ c ∈ s.carts, c.ID = ci.CartID)
    (h2 : ∀ oi ∈ s.orderItems, ∃ o ∈ s.orders, o.ID = oi.OrderID) :
    (∀ ci ∈ (runCalls s calls).cartItems, ∃ c ∈ (runCalls s calls).carts, c.ID = ci.CartID) ∧
    (∀ oi ∈ (runCalls s calls).orderItems,
      ∃ o ∈ (runCalls s calls).orders, o.ID = oi.OrderID) := by
  induction calls generalizing s with
  | nil => exact ⟨h1, h2⟩
  | cons call rest ih =>
    cases call with
    | addToCart userID req =>
      obtain ⟨a, b⟩ := addToCart_references s userID req h1 h2
      exact ih _ a b
    | createOrder userID =>
      obtain ⟨a, b⟩ := createOrder_references s userID h1 h2
      exact ih _ a b

/-! ## addToCart -/

theorem wrapInt_of_fits (x : Int) (h1 : -(2 : Int) ^ 63 ≤ x) (h2 : x < 2 ^ 63) :
    wrapInt x = x := by
  unfold wrapInt
  omega

theorem binds_of_valid (itemID : Nat) (q : Int) (h0 : itemID ≠ 0) (h1 : itemID < 2 ^ 64)
    (h2 : 1 ≤ q) (h3 : q < 2 ^ 63) : (AddToCartRequest.mk itemID q).binds = true := by
  simp only [AddToCartRequest.binds, Bool.and_eq_true, decide_eq_true_eq]
  refine ⟨⟨⟨⟨?_, ?_⟩, ?_⟩, ?_⟩, ?_⟩ <;> omega

theorem dbFirstItem_isSome (s : Store) (itemID : Nat)
    (h : ∃ i ∈ s.items, i.ID = itemID ∧ i.DeletedAt = false) :
    ∃ item, dbFirstItem s itemID = some item := by
  cases hf : dbFirstItem s itemID with
  | some item => exact ⟨item, rfl⟩
  | none =>
    exfalso
    obtain ⟨i, hi, hid, hlive⟩ := h
    simp only [dbFirstItem, dbFirst_eq_none, List.filter_eq_nil_iff] at hf
    exact hf i hi (by simp [hid, hlive])

/-- The first `addToCart` of a user without a live cart, in a store whose cart items all
reference a cart row: a cart and one line are inserted. -/
theorem addToCart_first (s : Store) (userID itemID : Nat) (q : Int)
    (hcart : liveCarts s userID = [])
    (hitem : ∃ i ∈ s.items, i.ID = itemID ∧ i.DeletedAt = false)
    (h0 : itemID ≠ 0) (h1 : itemID < 2 ^ 64) (h2 : 1 ≤ q) (h3 : q < 2 ^ 63)
    (href : ∀ ci ∈ s.cartItems, ∃ c ∈ s.carts, c.ID = ci.CartID) :
    addToCart s userID ⟨itemID, q⟩
      = (⟨StatusOK, .cartItem "Item added to cart"
            ⟨freshID s.cartItemSeq (s.cartItems.map CartItem.ID),
              freshID s.cartSeq (s.carts.map Cart.ID), itemID, Item.zero, q⟩⟩,
          { s with
            carts := s.carts ++ [⟨freshID s.cartSeq (s.carts.map Cart.ID), userID, [], false⟩],
            cartSeq := freshID s.cartSeq (s.carts.map Cart.ID),
            cartItems := s.cartItems ++
              [⟨freshID s.cartItemSeq (s.cartItems.map CartItem.ID),
                freshID s.cartSeq (s.carts.map Cart.ID), itemID, Item.zero, q⟩],
            cartItemSeq := freshID s.cartItemSeq (s.cartItems.map CartItem.ID) }) := by
  obtain ⟨item, hfi⟩ := dbFirstItem_isSome s itemID hitem
  have hfc := (dbFirstCartByUser_eq_none s userID).mpr hcart
  have hb := binds_of_valid itemID q h0 h1 h2 h3
  have hnone : s.cartItems.filter
      (fun ci => ci.CartID == freshID s.cartSeq (s.carts.map Cart.ID) && ci.ItemID == itemID)
        = [] := by
    rw [List.filter_eq_nil_iff]
    intro ci hci
    obtain ⟨c, hc, hid⟩ := href ci hci
    have := lt_freshID s.cartSeq (s.carts.map Cart.ID) c.ID (List.mem_map_of_mem _ hc)
    have hne : ci.CartID ≠ freshID s.cartSeq (s.carts.map Cart.ID) := by omega
    simp [hne]
  simp [addToCart, hb, hfi, hfc, dbCreateCart, dbFirstCartItem, hnone, dbFirst, dbCreateCartItem]

/-- A second `addToCart` of the same item after `addToCart_first`: the line is found and
its quantity is increased in place. -/
theorem addToCart_twice (s : Store) (userID itemID : Nat) (q1 q2 : Int)
    (hcart : liveCarts s userID = [])
    (hitem : ∃ i ∈ s.items, i.ID = itemID ∧ i.DeletedAt = false)
    (h0 : itemID ≠ 0) (h1 : itemID < 2 ^ 64)
    (hq1 : 1 ≤ q1) (hq1m : q1 < 2 ^ 63) (hq2 : 1 ≤ q2) (hq2m : q2 < 2 ^ 63)
    (href : ∀ ci ∈ s.cartItems, ∃ c ∈ s.carts, c.ID = ci.CartID) :
    addToCart (addToCart s userID ⟨itemID, q1⟩).2 userID ⟨itemID, q2⟩
      = (⟨StatusOK, .cartItem "Item added to cart"
            ⟨freshID s.cartItemSeq (s.cartItems.map CartItem.ID),
              freshID s.cartSeq (s.carts.map Cart.ID), itemID, Item.zero, wrapInt (q1 + q2)⟩⟩,
          { s with
            carts := s.carts ++ [⟨freshID s.cartSeq (s.carts.map Cart.ID), userID, [], false⟩],
            cartSeq := freshID s.cartSeq (s.carts.map Cart.ID),
            cartItems := s.cartItems ++
              [⟨freshID s.cartItemSeq (s.cartItems.map CartItem.ID),
                freshID s.cartSeq (s.carts.map Cart.ID), itemID, Item.zero, wrapInt (q1 + q2)⟩],
            cartItemSeq := freshID s.cartItemSeq (s.cartItems.map CartItem.ID) }) := by
  rw [addToCart_first s userID itemID q1 hcart hitem h0 h1 hq1 hq1m href]
  obtain ⟨item, hfi⟩ := dbFirstItem_isSome s itemID hitem
  have hb := binds_of_valid itemID q2 h0 h1 hq2 hq2m
  have hnone : s.cartItems.filter
      (fun ci => ci.CartID == freshID s.cartSeq (s.carts.map Cart.ID) && ci.ItemID == itemID)
        = [] := by
    rw [List.filter_eq_nil_iff]
    intro ci hci
    obtain ⟨c, hc, hid⟩ := href ci hci
    have := lt_freshID s.cartSeq (s.carts.map Cart.ID) c.ID (List.mem_map_of_mem _ hc)
    have hne : ci.CartID ≠ freshID s.cartSeq (s.carts.map Cart.ID) := by omega
    simp [hne]
  have hlive : List.filter (fun c => !c.DeletedAt && c.UserID == userID) s.carts = [] := hcart
  have hkeep : s.cartItems.map (fun r =>
      if r.ID = freshID s.cartItemSeq (s.cartItems.map CartItem.ID) then
        (⟨freshID s.cartItemSeq (s.cartItems.map CartItem.ID),
          freshID s.cartSeq (s.carts.map Cart.ID), itemID, Item.zero, wrapInt (q1 + q2)⟩ :
            CartItem)
      else r) = s.cartItems := by
    conv_rhs => rw [← List.map_id s.cartItems]
    apply List.map_congr_left
    intro r hr
    have := lt_freshID s.cartItemSeq (s.cartItems.map CartItem.ID) r.ID
      (List.mem_map_of_mem _ hr)
    have hne : r.ID ≠ freshID s.cartItemSeq (s.cartItems.map CartItem.ID) := by omega
    simp [hne]
  have hfi2 : dbFirstItem
      { s with
        carts := s.carts ++ [⟨freshID s.cartSeq (s.carts.map Cart.ID), userID, [], false⟩],
        cartSeq := freshID s.cartSeq (s.carts.map Cart.ID),
        cartItems := s.cartItems ++
          [⟨freshID s.cartItemSeq (s.cartItems.map CartItem.ID),
            freshID s.cartSeq (s.carts.map Cart.ID), itemID, Item.zero, q1⟩],
        cartItemSeq := freshID s.cartItemSeq (s.cartItems.map CartItem.ID) } itemID
      = some item := hfi
  simp [addToCart, hb, hfi2, dbFirstCartByUser, hlive, dbFirstCartItem, hnone, dbFirst,
    dbSaveCartItem, freshID_pos, hkeep]

/-- C5, as amended: for a user without a live cart, an existing item and quantities
`q1, q2 ≥ 1` whose sum fits a Go `int` (`q1 + q2 ≤ 2 ^ 63 - 1`), `addToCart` of the item with
`q1` and then with `q2` leaves the user one live cart holding exactly one line for the
item, with quantity `q1 + q2`, and the second call returns that line.  The store is one
whose cart items all reference a cart row, as every store the handlers reach is
(`runCalls_references`). -/
theorem addToCart_merges_quantities (s : Store) (userID itemID : Nat) (q1 q2 : Int)
    (hcart : liveCarts s userID = [])
    (hitem : ∃ i ∈ s.items, i.ID = itemID ∧ i.DeletedAt = false)
    (h0 : itemID ≠ 0) (h1 : itemID < 2 ^ 64)
    (hq1 : 1 ≤ q1) (hq2 : 1 ≤ q2) (hfit : q1 + q2 < 2 ^ 63)
    (href : ∀ ci ∈ s.cartItems, ∃ c ∈ s.carts, c.ID = ci.CartID) :
    ∃ cart row,
      liveCarts (addToCart (addToCart s userID ⟨itemID, q1⟩).2 userID ⟨itemID, q2⟩).2 userID
        = [cart] ∧
      (addToCart (addToCart s userID ⟨itemID, q1⟩).2 userID ⟨itemID, q2⟩).2.cartItems.filter
        (fun ci => ci.CartID == cart.ID && ci.ItemID == itemID) = [row] ∧
      (addToCart (addToCart s userID ⟨itemID, q1⟩).2 userID ⟨itemID, q2⟩).1
        = ⟨StatusOK, .cartItem "Item added to cart" row⟩ ∧
      row.Quantity = q1 + q2 := by
  rw [addToCart_twice s userID itemID q1 q2 hcart hitem h0 h1 hq1 (by omega) hq2 (by omega)
    href]
  have hnone : s.cartItems.filter
      (fun ci => ci.CartID == freshID s.cartSeq (s.carts.map Cart.ID) && ci.ItemID == itemID)
        = [] := by
    rw [List.filter_eq_nil_iff]
    intro ci hci
    obtain ⟨c, hc, hid⟩ := href ci hci
    have := lt_freshID s.cartSeq (s.carts.map Cart.ID) c.ID (List.mem_map_of_mem _ hc)
    have hne : ci.CartID ≠ freshID s.cartSeq (s.carts.map Cart.ID) := by omega
    simp [hne]
  have hlive : List.filter (fun c => !c.DeletedAt && c.UserID == userID) s.carts = [] := hcart
  refine ⟨⟨freshID s.cartSeq (s.carts.map Cart.ID), userID, [], false⟩,
    ⟨freshID s.cartItemSeq (s.cartItems.map CartItem.ID),
      freshID s.cartSeq (s.carts.map Cart.ID), itemID, Item.zero, wrapInt (q1 + q2)⟩,
    ?_, ?_, rfl, ?_⟩
  · simp [liveCarts, List.filter_append, hlive, List.filter_cons]
  · simp [List.filter_append, hnone, List.filter_cons]
  · exact wrapInt_of_fits (q1 + q2) (by omega) hfit

theorem addToCart_merges_quantities_witness :
    liveCarts seededStore 7 = [] ∧
    (∃ i ∈ seededStore.items, i.ID = 1 ∧ i.DeletedAt = false) ∧
    (∀ ci ∈ seededStore.cartItems, ∃ c ∈ seededStore.carts, c.ID = ci.CartID) ∧
    (addToCart (addToCart seededStore 7 ⟨1, 2⟩).2 7 ⟨1, 3⟩).2.cartItems.map
      (fun ci => (ci.CartID, ci.ItemID, ci.Quantity)) = [(1, 1, 5)] ∧
    ∃ cart row,
      liveCarts (addToCart (addToCart seededStore 7 ⟨1, 2⟩).2 7 ⟨1, 3⟩).2 7 = [cart] ∧
      (addToCart (addToCart seededStore 7 ⟨1, 2⟩).2 7 ⟨1, 3⟩).2.cartItems.filter
        (fun ci => ci.CartID == cart.ID && ci.ItemID == 1) = [row] ∧
      (addToCart (addToCart seededStore 7 ⟨1, 2⟩).2 7 ⟨1, 3⟩).1
        = ⟨StatusOK, .cartItem "Item added to cart" row⟩ ∧
      row.Quantity = 2 + 3 :=
  ⟨by decide, by decide, by decide, by decide,
    addToCart_merges_quantities seededStore 7 1 2 3 (by decide) (by decide) (by decide)
      (by decide) (by decide) (by decide) (by decide) (by decide)⟩

/-- C5 fails as stated: both quantities are at least 1 and fit a Go `int`, yet after
`addToCart` with `2 ^ 63 - 1` and then with `1` the single line of the item holds
`-2 ^ 63`, not the sum `2 ^ 63`, and that is the quantity the second call returns. -/
theorem addToCart_merge_counterexample :
    liveCarts seededStore 7 = [] ∧
    (AddToCartRequest.mk 1 9223372036854775807).binds = true ∧
    (AddToCartRequest.mk 1 1).binds = true ∧
    (addToCart (addToCart seededStore 7 ⟨1, 9223372036854775807⟩).2 7 ⟨1, 1⟩).2.cartItems.map
      (fun ci => (ci.CartID, ci.ItemID, ci.Quantity)) = [(1, 1, -9223372036854775808)] ∧
    ¬ ∃ row ∈
        (addToCart (addToCart seededStore 7 ⟨1, 9223372036854775807⟩).2 7 ⟨1, 1⟩).2.cartItems,
      row.ItemID = 1 ∧ row.Quantity = 9223372036854775807 + 1 := by
  decide

/-! ## Splitting the header -/

theorem splitChars_ne_nil (sep : Char) (l : List Char) : splitChars sep l ≠ [] := by
  cases l with
  | nil => simp [splitChars]
  | cons c cs =>
    simp only [splitChars]
    split
    · simp
    · split <;> simp

theorem splitChars_of_not_mem (sep : Char) (l : List Char) (h : sep ∉ l) :
    splitChars sep l = [l] := by
  induction l with
  | nil => rfl
  | cons c cs ih =>
    simp only [List.mem_cons, not_or] at h
    have hc : ¬ c = sep := fun e => h.1 e.symm
    simp [splitChars, hc, ih h.2]

theorem splitChars_append (sep : Char) (a b : List Char) (h : sep ∉ a) :
    splitChars sep (a ++ sep :: b) = a :: splitChars sep b := by
  induction a with
  | nil => simp [splitChars]
  | cons c cs ih =>
    simp only [List.mem_cons, not_or] at h
    have hc : ¬ c = sep := fun e => h.1 e.symm
    simp [splitChars, hc, ih h.2]

theorem splitChars_eq_singleton (sep : Char) (l b : List Char)
    (h : splitChars sep l = [b]) : l = b ∧ sep ∉ b := by
  induction l generalizing b with
  | nil =>
    simp only [splitChars, List.cons.injEq, and_true] at h
    subst h
    simp
  | cons c cs ih =>
    simp only [splitChars] at h
    by_cases hc : c = sep
    · simp only [hc, if_true, List.cons.injEq] at h
      exact absurd h.2 (splitChars_ne_nil sep cs)
    · simp only [hc, if_false] at h
      cases hs : splitChars sep cs with
      | nil => exact absurd hs (splitChars_ne_nil sep cs)
      | cons p ps =>
        rw [hs] at h
        simp only [List.cons.injEq] at h
        obtain ⟨rfl, rfl⟩ := h
        obtain ⟨rfl, hnot⟩ := ih p hs
        refine ⟨rfl, ?_⟩
        simp only [List.mem_cons, not_or]
        exact ⟨fun e => hc e.symm, hnot⟩

theorem splitChars_eq_pair (sep : Char) (l a b : List Char)
    (h : splitChars sep l = [a, b]) : l = a ++ sep :: b ∧ sep ∉ a ∧ sep ∉ b := by
  induction l generalizing a with
  | nil => simp [splitChars] at h
  | cons c cs ih =>
    simp only [splitChars] at h
    by_cases hc : c = sep
    · simp only [hc, if_true, List.cons.injEq] at h
      obtain ⟨rfl, h2⟩ := h
      obtain ⟨rfl, hnot⟩ := splitChars_eq_singleton sep cs b h2
      simp [hc, hnot]
    · simp only [hc, if_false] at h
      cases hs : splitChars sep cs with
      | nil => exact absurd hs (splitChars_ne_nil sep cs)
      | cons p ps =>
        rw [hs] at h
        simp only [List.cons.injEq] at h
        obtain ⟨rfl, rfl⟩ := h
        obtain ⟨rfl, hp, hb⟩ := ih p hs
        refine ⟨by simp, ?_, hb⟩
        simp only [List.mem_cons, not_or]
        exact ⟨fun e => hc e.symm, hp⟩

/-- A header made of `Bearer`, one space and a token without a space splits into exactly
these two parts. -/
theorem stringsSplit_bearer (token : String) (h : ' ' ∉ token.data) :
    stringsSplit ("Bearer " ++ token) = ["Bearer", token] := by
  have hd : ("Bearer " ++ token).data = "Bearer".data ++ ' ' :: token.data := by
    rw [String.data_append]
    rfl
  have hb : ' ' ∉ "Bearer".data := by decide
  rw [stringsSplit, hd, splitChars_append ' ' _ _ hb, splitChars_of_not_mem ' ' _ h]
  rfl

/-- A header that splits into `Bearer` and one more part is `Bearer`, one space and a token
without a space. -/
theorem stringsSplit_eq_bearer (header token : String)
    (h : stringsSplit header = ["Bearer", token]) :
    header = "Bearer " ++ token ∧ ' ' ∉ token.data := by
  simp only [stringsSplit] at h
  cases hs : splitChars ' ' header.data with
  | nil => exact absurd hs (splitChars_ne_nil _ _)
  | cons a rest =>
    rw [hs] at h
    cases rest with
    | nil => simp at h
    | cons b rest2 =>
      cases rest2 with
      | cons c rest3 => simp at h
      | nil =>
        simp only [List.map_cons, List.map_nil, List.cons.injEq, and_true] at h
        obtain ⟨h1, h2⟩ := h
        obtain ⟨hd, -, hb⟩ := splitChars_eq_pair ' ' _ a b hs
        have ha : a = "Bearer".data := by
          have := congrArg String.data h1
          simpa using this
        have hbt : b = token.data := by
          have := congrArg String.data h2
          simpa using this
        subst ha hbt
        refine ⟨?_, hb⟩
        apply String.ext
        rw [hd, String.data_append]
        rfl

/-! ## Tokens -/

theorem digitChar_mod_ten (n : Nat) :
    Nat.digitChar (n % 10) ∈ ['0', '1', '2', '3', '4', '5', '6', '7', '8', '9'] ∧
    (Nat.digitChar (n % 10)).toNat - 48 = n % 10 := by
  have h : n % 10 < 10 := Nat.mod_lt _ (by decide)
  generalize n % 10 = k at h
  interval_cases k <;> decide

theorem toDigitsCore_chars (fuel n : Nat) (ds : List Char) :
    ∀ c ∈ Nat.toDigitsCore 10 fuel n ds,
      c ∈ ds ∨ c ∈ ['0', '1', '2', '3', '4', '5', '6', '7', '8', '9'] := by
  induction fuel generalizing n ds with
  | zero =>
    intro c hc
    simp only [Nat.toDigitsCore] at hc
    exact Or.inl hc
  | succ fuel ih =>
    intro c hc
    simp only [Nat.toDigitsCore] at hc
    split at hc
    · simp only [List.mem_cons] at hc
      rcases hc with rfl | hc
      · exact Or.inr (digitChar_mod_ten n).1
      · exact Or.inl hc
    · rcases ih _ _ c hc with h | h
      · simp only [List.mem_cons] at h
        rcases h with rfl | h
        · exact Or.inr (digitChar_mod_ten n).1
        · exact Or.inl h
      · exact Or.inr h

theorem toDigits_chars (n : Nat) :
    ∀ c ∈ Nat.toDigits 10 n, c ∈ ['0', '1', '2', '3', '4', '5', '6', '7', '8', '9'] := by
  intro c hc
  rcases toDigitsCore_chars (n + 1) n [] c hc with h | h
  · simp at h
  · exact h

/-- Reading the digits back gives the number. -/
theorem toDigitsCore_value (fuel n : Nat) (ds : List Char) (h : n < fuel) :
    (Nat.toDigitsCore 10 fuel n ds).foldl (fun acc c => acc * 10 + (c.toNat - 48)) 0
      = ds.foldl (fun acc c => acc * 10 + (c.toNat - 48)) n := by
  induction fuel generalizing n ds with
  | zero => omega
  | succ fuel ih =>
    simp only [Nat.toDigitsCore]
    split
    · rename_i h0
      simp only [List.foldl_cons, Nat.zero_mul, Nat.zero_add, (digitChar_mod_ten n).2]
      have : n % 10 = n := by omega
      rw [this]
    · rename_i h0
      rw [ih (n / 10) _ (by omega)]
      simp only [List.foldl_cons, (digitChar_mod_ten n).2]
      have : n / 10 * 10 + n % 10 = n := by omega
      rw [this]

theorem toDigits_injective (a b : Nat) (h : Nat.toDigits 10 a = Nat.toDigits 10 b) : a = b := by
  have ha := toDigitsCore_value (a + 1) a [] (by omega)
  have hb := toDigitsCore_value (b + 1) b [] (by omega)
  simp only [List.foldl_nil] at ha hb
  unfold Nat.toDigits at h
  rw [h] at ha
  omega

theorem hexEncode_chars (bs : List (Fin 256)) :
    ∀ c ∈ hexEncode bs, c ≠ ' ' := by
  have hd : ∀ i : Fin 16, Nat.digitChar i.val ≠ ' ' := by decide
  induction bs with
  | nil => simp [hexEncode]
  | cons b rest ih =>
    intro c hc
    simp only [hexEncode, List.mem_cons] at hc
    rcases hc with rfl | rfl | hc
    · exact hd ⟨b.val / 16, by omega⟩
    · exact hd ⟨b.val % 16, by omega⟩
    · exact ih c hc

theorem hexEncode_injective (a b : List (Fin 256)) (h : hexEncode a = hexEncode b) :
    a = b := by
  have hd : ∀ i j : Fin 16, Nat.digitChar i.val = Nat.digitChar j.val → i = j := by decide
  induction a generalizing b with
  | nil =>
    cases b with
    | nil => rfl
    | cons y ys => simp [hexEncode] at h
  | cons x xs ih =>
    cases b with
    | nil => simp [hexEncode] at h
    | cons y ys =>
      simp only [hexEncode, List.cons.injEq] at h
      obtain ⟨h1, h2, h3⟩ := h
      have e1 := hd ⟨x.val / 16, by omega⟩ ⟨y.val / 16, by omega⟩ h1
      have e2 := hd ⟨x.val % 16, by omega⟩ ⟨y.val % 16, by omega⟩ h2
      simp only [Fin.mk.injEq] at e1 e2
      have hxy : x = y := by
        apply Fin.ext
        omega
      rw [hxy, ih ys h3]

theorem append_cons_inj_of_not_mem (c : Char) (l1 l2 r1 r2 : List Char)
    (h1 : c ∉ l1) (h2 : c ∉ l2) (h : l1 ++ c :: r1 = l2 ++ c :: r2) :
    l1 = l2 ∧ r1 = r2 := by
  induction l1 generalizing l2 with
  | nil =>
    cases l2 with
    | nil => simpa using h
    | cons y ys =>
      simp only [List.nil_append, List.cons_append, List.cons.injEq] at h
      simp [h.1] at h2
  | cons x xs ih =>
    cases l2 with
    | nil =>
      simp only [List.nil_append, List.cons_append, List.cons.injEq] at h
      simp [h.1] at h1
    | cons y ys =>
      simp only [List.cons_append, List.cons.injEq] at h
      simp only [List.mem_cons, not_or] at h1 h2
      obtain ⟨e1, e2⟩ := ih ys h1.2 h2.2 h.2
      exact ⟨by rw [h.1, e1], e2⟩

theorem generateToken_data (userID : Nat) (bytes : RandomBytes) :
    (generateToken userID bytes).data
      = Nat.toDigits 10 userID ++ '_' :: hexEncode bytes.val := by
  simp [generateToken, Nat.repr, String.data_append, List.asString]

theorem generateToken_ne_empty (userID : Nat) (bytes : RandomBytes) :
    generateToken userID bytes ≠ "" := by
  intro h
  have := congrArg String.data h
  rw [generateToken_data] at this
  simp at this

theorem generateToken_no_space (userID : Nat) (bytes : RandomBytes) :
    ' ' ∉ (generateToken userID bytes).data := by
  rw [generateToken_data]
  intro h
  simp only [List.mem_append, List.mem_cons] at h
  rcases h with h | h | h
  · have := toDigits_chars userID ' ' h
    revert this
    decide
  · revert h
    decide
  · exact hexEncode_chars _ _ h rfl

theorem underscore_not_mem_toDigits (n : Nat) : '_' ∉ Nat.toDigits 10 n := by
  intro h
  have := toDigits_chars n '_' h
  revert this
  decide

/-- Two tokens that are equal were made for the same user key from the same bytes. -/
theorem generateToken_injective (a b : Nat) (x y : RandomBytes)
    (h : generateToken a x = generateToken b y) : a = b ∧ x = y := by
  have hd := congrArg String.data h
  rw [generateToken_data, generateToken_data] at hd
  obtain ⟨h1, h2⟩ := append_cons_inj_of_not_mem '_' _ _ _ _
    (underscore_not_mem_toDigits a) (underscore_not_mem_toDigits b) hd
  exact ⟨toDigits_injective a b h1, Subtype.ext (hexEncode_injective _ _ h2)⟩

/-! ## authMiddleware and loginUser -/

theorem authMiddleware_bearer (s : Store) (token : String) (h : ' ' ∉ token.data) :
    authMiddleware s (some ("Bearer " ++ token))
      = match dbFirstUserByToken s token with
        | none => .abort ⟨StatusUnauthorized, .error "Invalid token"⟩
        | some user => .next user.ID user := by
  have hne : "Bearer " ++ token ≠ "" := by
    intro e
    have := congrArg String.data e
    rw [String.data_append] at this
    have h2 : "Bearer ".data = 'B' :: "earer ".data := rfl
    rw [h2] at this
    simp at this
  simp only [authMiddleware, Option.getD_some, hne, if_false, stringsSplit_bearer token h]
  simp

theorem loginUser_ok (ext : Extern) (s : Store) (req : LoginRequest) (rnd : RandomBytes)
    (message token : String) (user : User)
    (h : (loginUser ext s req rnd).1 = ⟨StatusOK, .login message token user⟩) :
    ∃ u0, dbFirstUserByUsername s req.Username = some u0 ∧
      ext.compareHashAndPassword u0.Password req.Password = true ∧
      ¬ (req.Username = "" ∨ req.Password = "") ∧
      token = generateToken u0.ID rnd ∧ user = { u0 with Token := token } ∧
      (loginUser ext s req rnd).2 = dbUpdateToken s u0 token := by
  unfold loginUser at h ⊢
  by_cases hb : req.Username = "" ∨ req.Password = ""
  · simp [hb, StatusBadRequest, StatusOK] at h
  · simp only [hb, if_false] at h ⊢
    cases hu : dbFirstUserByUsername s req.Username with
    | none => simp [hu, StatusUnauthorized, StatusOK] at h
    | some u0 =>
      simp only [hu] at h ⊢
      by_cases hc : ext.compareHashAndPassword u0.Password req.Password = false
      · simp [hc, StatusUnauthorized, StatusOK] at h
      · simp only [hc, if_false, Response.mk.injEq, Body.login.injEq, true_and] at h
        obtain ⟨-, rfl, rfl⟩ := h
        refine ⟨u0, rfl, by simpa using hc, not_false, rfl, rfl, ?_⟩
        simp [hc]

/-- In a store whose tokens were issued by `generateToken` for the row they are stored on,
a row holding a token made for key `a` has key `a`. -/
theorem token_owner (s : Store)
    (hissued : ∀ v ∈ s.users, v.Token = "" ∨ ∃ b, v.Token = generateToken v.ID b)
    (v : User) (hv : v ∈ s.users) (a : Nat) (b : RandomBytes)
    (h : v.Token = generateToken a b) : v.ID = a := by
  rcases hissued v hv with h0 | ⟨b2, h2⟩
  · rw [h0] at h
    exact absurd h.symm (generateToken_ne_empty a b)
  · rw [h2] at h
    exact (generateToken_injective _ _ _ _ h).1

theorem dbUpdateToken_users (s : Store) (u : User) (token : String) (h : u.ID ≠ 0) :
    (dbUpdateToken s u token).users
      = s.users.map (fun r =>
          if r.ID = u.ID ∧ r.DeletedAt = false then { r with Token := token } else r) := by
  simp [dbUpdateToken, h]

theorem dbUpdateToken_issued (s : Store) (u : User) (b : RandomBytes)
    (hissued : ∀ v ∈ s.users, v.Token = "" ∨ ∃ b, v.Token = generateToken v.ID b) :
    ∀ v ∈ (dbUpdateToken s u (generateToken u.ID b)).users,
      v.Token = "" ∨ ∃ b, v.Token = generateToken v.ID b := by
  intro v hv
  unfold dbUpdateToken at hv
  split at hv
  · exact hissued v hv
  · simp only [List.mem_map] at hv
    obtain ⟨r, hr, rfl⟩ := hv
    by_cases hc : r.ID = u.ID ∧ r.DeletedAt = false
    · simp only [hc, and_self, if_true]
      exact Or.inr ⟨b, by simp [hc.1]⟩
    · simp only [hc, if_false]
      exact hissued r hr

theorem dbUpdateToken_keys (s : Store) (u : User) (token : String)
    (hkeys : ∀ v ∈ s.users, v.ID ≠ 0) :
    ∀ v ∈ (dbUpdateToken s u token).users, v.ID ≠ 0 := by
  intro v hv
  unfold dbUpdateToken at hv
  split at hv
  · exact hkeys v hv
  · simp only [List.mem_map] at hv
    obtain ⟨r, hr, rfl⟩ := hv
    by_cases hc : r.ID = u.ID ∧ r.DeletedAt = false
    · simp only [hc, and_self, if_true]
      rw [← hc.1]
      exact hkeys r hr
    · simp only [hc, if_false]
      exact hkeys r hr

/-- After the token of a live row `u0` is replaced by a fresh token, that token resolves to
a row with the key of `u0`. -/
theorem dbFirstUserByToken_after_update (s : Store) (u0 : User) (b : RandomBytes)
    (hissued : ∀ v ∈ s.users, v.Token = "" ∨ ∃ b, v.Token = generateToken v.ID b)
    (hmem : u0 ∈ s.users) (hlive : u0.DeletedAt = false) (hkey : u0.ID ≠ 0) :
    ∃ user, dbFirstUserByToken (dbUpdateToken s u0 (generateToken u0.ID b))
        (generateToken u0.ID b) = some user ∧ user.ID = u0.ID := by
  cases hf : dbFirstUserByToken (dbUpdateToken s u0 (generateToken u0.ID b))
      (generateToken u0.ID b) with
  | none =>
    exfalso
    simp only [dbFirstUserByToken, dbFirst_eq_none, List.filter_eq_nil_iff,
      dbUpdateToken_users s u0 _ hkey] at hf
    have := hf { u0 with Token := generateToken u0.ID b }
      (List.mem_map.mpr ⟨u0, hmem, by simp [hlive]⟩)
    simp [hlive] at this
  | some user =>
    refine ⟨user, rfl, ?_⟩
    have hm := dbFirst_mem _ _ _ hf
    have hiss := dbUpdateToken_issued s u0 b hissued
    rw [List.mem_filter] at hm
    obtain ⟨hm1, hm2⟩ := hm
    simp only [Bool.and_eq_true, beq_iff_eq] at hm2
    exact token_owner _ hiss user hm1 u0.ID b hm2.2

theorem dbFirstUserByUsername_mem (s : Store) (name : String) (u : User)
    (h : dbFirstUserByUsername s name = some u) :
    u ∈ s.users ∧ u.DeletedAt = false ∧ u.Username = name := by
  have hm := dbFirst_mem _ _ _ h
  rw [List.mem_filter] at hm
  obtain ⟨hm1, hm2⟩ := hm
  simp only [Bool.and_eq_true, beq_iff_eq, Bool.not_eq_true'] at hm2
  exact ⟨hm1, hm2.1, hm2.2⟩

/-- C6: in a store whose stored tokens were all issued by `generateToken` (for the row
they are stored on; rows hold database keys, which are not zero), after a login that
succeeds for a user and returns a token, a request whose `Authorization` header is
`Bearer`, a space and that token passes `authMiddleware` with `user_id` set to the key of
the user who logged in. -/
theorem login_token_round_trip (ext : Extern) (s : Store) (req : LoginRequest)
    (rnd : RandomBytes) (message token : String) (user : User)
    (hissued : ∀ v ∈ s.users, v.Token = "" ∨ ∃ b, v.Token = generateToken v.ID b)
    (hkeys : ∀ v ∈ s.users, v.ID ≠ 0)
    (hlogin : (loginUser ext s req rnd).1 = ⟨StatusOK, .login message token user⟩) :
    ∃ resolved, authMiddleware (loginUser ext s req rnd).2 (some ("Bearer " ++ token))
      = .next user.ID resolved ∧ resolved.Token = token := by
  obtain ⟨u0, hu0, -, -, htok, huser, hstore⟩ := loginUser_ok ext s req rnd message token user hlogin
  obtain ⟨hmem, hlive, -⟩ := dbFirstUserByUsername_mem s _ u0 hu0
  subst htok
  obtain ⟨resolved, hres, hid⟩ :=
    dbFirstUserByToken_after_update s u0 rnd hissued hmem hlive (hkeys u0 hmem)
  rw [hstore, authMiddleware_bearer _ _ (generateToken_no_space u0.ID rnd), hres]
  have huid : user.ID = u0.ID := by rw [huser]
  refine ⟨resolved, by simp [hid, huid], ?_⟩
  have hm := dbFirst_mem _ _ _ hres
  rw [List.mem_filter] at hm
  have hm2 := hm.2
  simp only [Bool.and_eq_true, beq_iff_eq] at hm2
  exact hm2.2

theorem login_token_round_trip_witness :
    (∀ v ∈ registeredStore.users, v.Token = "" ∨ ∃ b, v.Token = generateToken v.ID b) ∧
    (∀ v ∈ registeredStore.users, v.ID ≠ 0) ∧
    (loginUser demoExtern registeredStore ⟨"alice", "password"⟩ demoBytes1).1
      = ⟨StatusOK, .login "Login successful" "1_abababababababababababababababab"
          ⟨1, "alice", "alice@example.com", "hash:password",
            "1_abababababababababababababababab", false⟩⟩ ∧
    ∃ resolved,
      authMiddleware (loginUser demoExtern registeredStore ⟨"alice", "password"⟩ demoBytes1).2
        (some ("Bearer " ++ "1_abababababababababababababababab")) = .next 1 resolved ∧
      resolved.Token = "1_abababababababababababababababab" :=
  ⟨fun v hv => Or.inl ((by decide : ∀ v ∈ registeredStore.users, v.Token = "") v hv),
    by decide, by decide,
    login_token_round_trip demoExtern registeredStore ⟨"alice", "password"⟩ demoBytes1
      "Login successful" "1_abababababababababababababababab"
      ⟨1, "alice", "alice@example.com", "hash:password",
        "1_abababababababababababababababab", false⟩
      (fun v hv => Or.inl ((by decide : ∀ v ∈ registeredStore.users, v.Token = "") v hv))
      (by decide) (by decide)⟩

theorem dbFirstUserByUsername_after_update (s : Store) (u0 : User) (token name : String)
    (hkey : u0.ID ≠ 0) :
    dbFirstUserByUsername (dbUpdateToken s u0 token) name
      = (dbFirstUserByUsername s name).map (fun r =>
          if r.ID = u0.ID ∧ r.DeletedAt = false then { r with Token := token } else r) := by
  simp only [dbFirstUserByUsername, dbUpdateToken_users s u0 token hkey, List.filter_map]
  rw [dbFirst_map]
  · congr 2
    apply List.filter_congr
    intro r _
    by_cases hc : r.ID = u0.ID ∧ r.DeletedAt = false <;> simp [hc]
  · intro r
    by_cases hc : r.ID = u0.ID ∧ r.DeletedAt = false <;> simp [hc]

/-- After the token of the rows with the key of `u0` is replaced by `t2`, a different token
made for that key resolves to no user. -/
theorem dbFirstUserByToken_old_token (s : Store) (u0 : User) (b1 b2 : RandomBytes)
    (hissued : ∀ v ∈ s.users, v.Token = "" ∨ ∃ b, v.Token = generateToken v.ID b)
    (hkey : u0.ID ≠ 0) (hb : b1 ≠ b2) :
    dbFirstUserByToken (dbUpdateToken s u0 (generateToken u0.ID b2)) (generateToken u0.ID b1)
      = none := by
  simp only [dbFirstUserByToken, dbFirst_eq_none, List.filter_eq_nil_iff,
    dbUpdateToken_users s u0 _ hkey, List.mem_map]
  rintro v ⟨r, hr, rfl⟩
  by_cases hc : r.ID = u0.ID ∧ r.DeletedAt = false
  · simp only [hc, and_self, if_true, Bool.and_eq_true, beq_iff_eq, not_and]
    intro _ htok
    exact hb (generateToken_injective _ _ _ _ htok).2.symm
  · simp only [hc, if_false, Bool.and_eq_true, beq_iff_eq, not_and, Bool.not_eq_true',
      Bool.not_eq_false]
    intro hlive htok
    have hid := token_owner s hissued r hr u0.ID b1 htok
    exact hc ⟨hid, by simpa using hlive⟩

/-- C7: in a store whose tokens were issued by `generateToken` for the row they are stored
on (rows hold database keys, which are not zero), when a login succeeds for a user with
token `t1` and the same login is made again with different random bytes, the second login
succeeds for the same user with a token `t2` different from `t1`; afterwards a request
presenting `t1` is answered 401 and a request presenting `t2` passes with `user_id` set to
that user's key. -/
theorem second_login_replaces_token (ext : Extern) (s : Store) (req : LoginRequest)
    (b1 b2 : RandomBytes) (m1 t1 : String) (user1 : User)
    (hissued : ∀ v ∈ s.users, v.Token = "" ∨ ∃ b, v.Token = generateToken v.ID b)
    (hkeys : ∀ v ∈ s.users, v.ID ≠ 0)
    (hlogin : (loginUser ext s req b1).1 = ⟨StatusOK, .login m1 t1 user1⟩)
    (hb : b1 ≠ b2) :
    ∃ t2 user2,
      (loginUser ext (loginUser ext s req b1).2 req b2).1
        = ⟨StatusOK, .login "Login successful" t2 user2⟩ ∧
      user2.ID = user1.ID ∧ t1 ≠ t2 ∧
      authMiddleware (loginUser ext (loginUser ext s req b1).2 req b2).2
        (some ("Bearer " ++ t1)) = .abort ⟨StatusUnauthorized, .error "Invalid token"⟩ ∧
      ∃ resolved,
        authMiddleware (loginUser ext (loginUser ext s req b1).2 req b2).2
          (some ("Bearer " ++ t2)) = .next user1.ID resolved := by
  obtain ⟨u0, hu0, hcmp, hbind, htok, huser, hstore⟩ := loginUser_ok ext s req b1 m1 t1 user1 hlogin
  obtain ⟨hmem, hlive, -⟩ := dbFirstUserByUsername_mem s _ u0 hu0
  have hkey := hkeys u0 hmem
  subst htok
  have hfind : dbFirstUserByUsername (dbUpdateToken s u0 (generateToken u0.ID b1)) req.Username
      = some { u0 with Token := generateToken u0.ID b1 } := by
    rw [dbFirstUserByUsername_after_update s u0 _ _ hkey, hu0]
    simp [hlive]
  have hsecond : loginUser ext (dbUpdateToken s u0 (generateToken u0.ID b1)) req b2
      = (⟨StatusOK, .login "Login successful" (generateToken u0.ID b2)
            { u0 with Token := generateToken u0.ID b2 }⟩,
          dbUpdateToken (dbUpdateToken s u0 (generateToken u0.ID b1))
            { u0 with Token := generateToken u0.ID b1 } (generateToken u0.ID b2)) := by
    simp [loginUser, hbind, hfind, hcmp]
  have hiss1 := dbUpdateToken_issued s u0 b1 hissued
  have hmem1 : ({ u0 with Token := generateToken u0.ID b1 } : User)
      ∈ (dbUpdateToken s u0 (generateToken u0.ID b1)).users :=
    (dbFirstUserByUsername_mem _ _ _ hfind).1
  have huid : user1.ID = u0.ID := by rw [huser]
  rw [hstore, hsecond]
  refine ⟨generateToken u0.ID b2, { u0 with Token := generateToken u0.ID b2 }, rfl,
    huid.symm, ?_, ?_, ?_⟩
  · intro e
    exact hb (generateToken_injective _ _ _ _ e).2
  · rw [authMiddleware_bearer _ _ (generateToken_no_space u0.ID b1)]
    have := dbFirstUserByToken_old_token (dbUpdateToken s u0 (generateToken u0.ID b1))
      { u0 with Token := generateToken u0.ID b1 } b1 b2 hiss1 hkey hb
    simp only at this
    rw [this]
  · obtain ⟨resolved, hres, hid⟩ :=
      dbFirstUserByToken_after_update (dbUpdateToken s u0 (generateToken u0.ID b1))
        { u0 with Token := generateToken u0.ID b1 } b2 hiss1 hmem1 hlive hkey
    simp only at hres hid
    rw [authMiddleware_bearer _ _ (generateToken_no_space u0.ID b2), hres]
    exact ⟨resolved, by simp [hid, huid]⟩

theorem second_login_replaces_token_witness :
    (∀ v ∈ registeredStore.users, v.Token = "" ∨ ∃ b, v.Token = generateToken v.ID b) ∧
    (∀ v ∈ registeredStore.users, v.ID ≠ 0) ∧
    (loginUser demoExtern registeredStore ⟨"alice", "password"⟩ demoBytes1).1
      = ⟨StatusOK, .login "Login successful" "1_abababababababababababababababab"
          ⟨1, "alice", "alice@example.com", "hash:password",
            "1_abababababababababababababababab", false⟩⟩ ∧
    demoBytes1 ≠ demoBytes2 ∧
    ∃ t2 user2,
      (loginUser demoExtern
          (loginUser demoExtern registeredStore ⟨"alice", "password"⟩ demoBytes1).2
          ⟨"alice", "password"⟩ demoBytes2).1
        = ⟨StatusOK, .login "Login successful" t2 user2⟩ ∧
      user2.ID = 1 ∧ "1_abababababababababababababababab" ≠ t2 ∧
      authMiddleware
          (loginUser demoExtern
            (loginUser demoExtern registeredStore ⟨"alice", "password"⟩ demoBytes1).2
            ⟨"alice", "password"⟩ demoBytes2).2
          (some ("Bearer " ++ "1_abababababababababababababababab"))
        = .abort ⟨StatusUnauthorized, .error "Invalid token"⟩ ∧
      ∃ resolved,
        authMiddleware
            (loginUser demoExtern
              (loginUser demoExtern registeredStore ⟨"alice", "password"⟩ demoBytes1).2
              ⟨"alice", "password"⟩ demoBytes2).2
            (some ("Bearer " ++ t2)) = .next 1 resolved :=
  ⟨fun v hv => Or.inl ((by decide : ∀ v ∈ registeredStore.users, v.Token = "") v hv),
    by decide, by decide, by decide,
    second_login_replaces_token demoExtern registeredStore ⟨"alice", "password"⟩
      demoBytes1 demoBytes2 "Login successful" "1_abababababababababababababababab"
      ⟨1, "alice", "alice@example.com", "hash:password",
        "1_abababababababababababababababab", false⟩
      (fun v hv => Or.inl ((by decide : ∀ v ∈ registeredStore.users, v.Token = "") v hv))
      (by decide) (by decide) (by decide)⟩

theorem dbFirstUserByToken_eq_none (s : Store) (token : String)
    (h : ∀ u ∈ s.users, u.DeletedAt = false → u.Token ≠ token) :
    dbFirstUserByToken s token = none := by
  simp only [dbFirstUserByToken, dbFirst_eq_none, List.filter_eq_nil_iff, Bool.and_eq_true,
    beq_iff_eq, not_and, Bool.not_eq_true', Bool.not_eq_false]
  intro u hu hlive
  exact h u hu (by simpa using hlive)

theorem authMiddleware_malformed (s : Store) (header : String) (hne : header ≠ "")
    (hbad : ∀ token : String, ' ' ∉ token.data → header ≠ "Bearer " ++ token) :
    authMiddleware s (some header)
      = .abort ⟨StatusUnauthorized, .error "Invalid authorization header format"⟩ := by
  simp only [authMiddleware, Option.getD_some, hne, if_false]
  cases hs : stringsSplit header with
  | nil => rfl
  | cons p0 rest =>
    cases rest with
    | nil => rfl
    | cons token rest2 =>
      cases rest2 with
      | cons p2 rest3 => rfl
      | nil =>
        by_cases hp : p0 = "Bearer"
        · subst hp
          obtain ⟨e, hsp⟩ := stringsSplit_eq_bearer header token hs
          exact absurd e (hbad token hsp)
        · simp [hp]

/-- C8, as amended: `authMiddleware` answers 401 and aborts in all three cases, but with a
different error text in each: "Authorization header required" when the header is missing
or empty, "Invalid authorization header format" when a non-empty header is not `Bearer`,
one space and a token without a space, and "Invalid token" when the header has that form
and no live user holds the token. -/
theorem authMiddleware_rejections (s : Store) :
    authMiddleware s none
      = .abort ⟨StatusUnauthorized, .error "Authorization header required"⟩ ∧
    (∀ header : String, header ≠ "" →
      (∀ token : String, ' ' ∉ token.data → header ≠ "Bearer " ++ token) →
      authMiddleware s (some header)
        = .abort ⟨StatusUnauthorized, .error "Invalid authorization header format"⟩) ∧
    (∀ token : String, ' ' ∉ token.data →
      (∀ u ∈ s.users, u.DeletedAt = false → u.Token ≠ token) →
      authMiddleware s (some ("Bearer " ++ token))
        = .abort ⟨StatusUnauthorized, .error "Invalid token"⟩) := by
  refine ⟨rfl, authMiddleware_malformed s, ?_⟩
  intro token hsp hnone
  rw [authMiddleware_bearer s token hsp, dbFirstUserByToken_eq_none s token hnone]

theorem authMiddleware_rejections_witness :
    authMiddleware registeredStore none
      = .abort ⟨StatusUnauthorized, .error "Authorization header required"⟩ ∧
    "Token abc" ≠ "" ∧
    (∀ token : String, ' ' ∉ token.data → "Token abc" ≠ "Bearer " ++ token) ∧
    authMiddleware registeredStore (some "Token abc")
      = .abort ⟨StatusUnauthorized, .error "Invalid authorization header format"⟩ ∧
    ' ' ∉ "abc".data ∧
    (∀ u ∈ registeredStore.users, u.DeletedAt = false → u.Token ≠ "abc") ∧
    authMiddleware registeredStore (some ("Bearer " ++ "abc"))
      = .abort ⟨StatusUnauthorized, .error "Invalid token"⟩ := by
  have hbad : ∀ token : String, ' ' ∉ token.data → "Token abc" ≠ "Bearer " ++ token := by
    intro token _ e
    have h1 := congrArg String.data e
    rw [String.data_append] at h1
    have h2 : "Bearer ".data = 'B' :: "earer ".data := rfl
    have h3 : "Token abc".data = 'T' :: "oken abc".data := rfl
    rw [h2, h3, List.cons_append, List.cons.injEq] at h1
    exact absurd h1.1 (by decide)
  exact ⟨(authMiddleware_rejections registeredStore).1, by decide, hbad,
    (authMiddleware_rejections registeredStore).2.1 "Token abc" (by decide) hbad,
    by decide, by decide,
    (authMiddleware_rejections registeredStore).2.2 "abc" (by decide) (by decide)⟩

/-- C8 fails as stated: on one store, a request without header, a request with a malformed
header and a request with an unknown token get three different responses, so the response
tells which check failed. -/
theorem authMiddleware_rejections_counterexample :
    authMiddleware registeredStore none
      = .abort ⟨401, .error "Authorization header required"⟩ ∧
    authMiddleware registeredStore (some "Token abc")
      = .abort ⟨401, .error "Invalid authorization header format"⟩ ∧
    authMiddleware registeredStore (some "Bearer abc")
      = .abort ⟨401, .error "Invalid token"⟩ ∧
    authMiddleware registeredStore none ≠ authMiddleware registeredStore (some "Token abc") ∧
    authMiddleware registeredStore (some "Token abc")
      ≠ authMiddleware registeredStore (some "Bearer abc") ∧
    authMiddleware registeredStore none ≠ authMiddleware registeredStore (some "Bearer abc") := by
  decide

/-- C10 fails on the code: in the store `createUser` leaves after registering one user,
who has never logged in and whose stored token is the empty string, the header `Bearer`
followed by one space and an empty token passes `authMiddleware` as that user. -/
theorem authMiddleware_accepts_empty_token :
    (createUser demoExtern seededStore ⟨"alice", "alice@example.com", "password"⟩).1.status
      = StatusCreated ∧
    registeredStore.users.map (fun u => (u.ID, u.Username, u.Token)) = [(1, "alice", "")] ∧
    stringsSplit "Bearer " = ["Bearer", ""] ∧
    authMiddleware registeredStore (some "Bearer ")
      = .next 1 ⟨1, "alice", "alice@example.com", "hash:password", "", false⟩ := by
  decide

/-! ## Stores reached by registration and login -/

theorem createUser_users (ext : Extern) (s : Store) (req : CreateUserRequest) :
    (createUser ext s req).2.users = s.users ∨
    ∃ u, u.Token = "" ∧ u.ID = freshID s.userSeq (s.users.map User.ID) ∧
      (createUser ext s req).2.users = s.users ++ [u] := by
  unfold createUser
  split
  · exact Or.inl rfl
  · split
    · exact Or.inl rfl
    · rename_i hashedPassword _
      simp only [dbCreateUser]
      by_cases hdup : (s.users.any fun r =>
          r.Username == req.Username || r.Email == req.Email) = true
      · left
        simp [hdup]
      · right
        simp only [hdup, if_false]
        exact ⟨_, rfl, rfl, rfl⟩

theorem loginUser_store (ext : Extern) (s : Store) (req : LoginRequest) (rnd : RandomBytes) :
    (loginUser ext s req rnd).2 = s ∨
    ∃ u, (loginUser ext s req rnd).2 = dbUpdateToken s u (generateToken u.ID rnd) := by
  unfold loginUser
  split
  · exact Or.inl rfl
  · split
    · exact Or.inl rfl
    · rename_i user _
      split
      · exact Or.inl rfl
      · exact Or.inr ⟨user, rfl⟩

/-- Every store reached from one without users by `createUser` and `loginUser` calls holds
only tokens that are empty or were issued by `generateToken` for the row they are stored
on, and only non-zero user keys. -/
theorem runUserCalls_issued (ext : Extern) (calls : List UserCall) (s : Store)
    (hissued : ∀ v ∈ s.users, v.Token = "" ∨ ∃ b, v.Token = generateToken v.ID b)
    (hkeys : ∀ v ∈ s.users, v.ID ≠ 0) :
    (∀ v ∈ (runUserCalls ext s calls).users,
      v.Token = "" ∨ ∃ b, v.Token = generateToken v.ID b) ∧
    (∀ v ∈ (runUserCalls ext s calls).users, v.ID ≠ 0) := by
  induction calls generalizing s with
  | nil => exact ⟨hissued, hkeys⟩
  | cons call rest ih =>
    apply ih
    · cases call with
      | createUser req =>
        simp only [UserCall.apply]
        rcases createUser_users ext s req with h | ⟨u, h1, -, h⟩
        · rw [h]
          exact hissued
        · rw [h]
          intro v hv
          rcases List.mem_append.mp hv with hv | hv
          · exact hissued v hv
          · simp only [List.mem_singleton] at hv
            exact Or.inl (by rw [hv, h1])
      | loginUser req rnd =>
        simp only [UserCall.apply]
        rcases loginUser_store ext s req rnd with h | ⟨u, h⟩
        · rw [h]
          exact hissued
        · rw [h]
          exact dbUpdateToken_issued s u rnd hissued
    · cases call with
      | createUser req =>
        simp only [UserCall.apply]
        rcases createUser_users ext s req with h | ⟨u, -, h2, h⟩
        · rw [h]
          exact hkeys
        · rw [h]
          intro v hv
          rcases List.mem_append.mp hv with hv | hv
          · exact hkeys v hv
          · simp only [List.mem_singleton] at hv
            rw [hv, h2]
            exact freshID_pos _ _
      | loginUser req rnd =>
        simp only [UserCall.apply]
        rcases loginUser_store ext s req rnd with h | ⟨u, h⟩
        · rw [h]
          exact hkeys
        · rw [h]
          exact dbUpdateToken_keys s u _ hkeys

end ShoppingCart
